import Mathlib

/-!
Verification of the dizqueTV-python channel lineup sequencing engine.

The definitions below are a shallow embedding of the sequencing helpers in
`dizqueTV/helpers.py` and `dizqueTV/channels.py`.  Python media objects
(`Program`, `Redirect`, `Filler`, offline pads) are duck-typed records whose
attributes are read from a JSON dictionary with `data.get(...)`, so every
optional attribute is modelled as an `Option` field; `durationMs` is required
for every scheduled variant and is modelled as a `Nat`.  Python dictionaries
(used for the show/season/episode grouping) preserve insertion order and are
modelled as association lists with an in-place update (`updD`) that keeps the
position of an existing key and appends a fresh key at the end, exactly like a
CPython 3.7+ dict.  `sorted(...)` is Python's stable sort and is modelled with
the structural stable insertion sort `insertionSortB`; any two stable sorts by
the same key agree, so the choice of algorithm is immaterial.  Calls that
raise in Python
(ZeroDivisionError, ValueError from `min([])`, float division by zero,
unparsable dates) are modelled with `Option`/`Except` results.  Random sources
(`random.shuffle`, `random.choice`, `random.randint`) are modelled as explicit
oracle arguments `Nat → Nat` / `Nat → Bool`; the properties proved hold for
every oracle.
-/

namespace DizqueTV

open scoped List

/-- Shallow embedding of a dizqueTV media item (`Program` / `Redirect` /
`Filler` / offline pad from `channels.py`).  Every attribute that the Python
constructors read with `data.get(...)` (so possibly `None`) is an `Option`;
`duration` is the required `durationMs`. -/
structure MediaItem where
  type : Option String
  duration : Nat
  title : Option String
  ratingKey : Option String
  showTitle : Option String
  season : Option Nat
  episode : Option Nat
  date : Option String
  isOffline : Option Bool
  channel : Option Nat
deriving DecidableEq, Repr

/-- Python truthiness of an optional integer attribute (`None` and `0` are
falsy). -/
def truthyNat : Option Nat → Bool
  | none => false
  | some n => n != 0

/-- Python truthiness of an optional string attribute (`None` and `""` are
falsy). -/
def truthyStr : Option String → Bool
  | none => false
  | some s => s != ""

/-- Python truthiness of an optional boolean attribute. -/
def truthyBool : Option Bool → Bool
  | none => false
  | some b => b

/-- The item used as an offline pad: `Program(data={'duration': t,
'isOffline': True})` in `channels.py`. -/
def mkOfflinePad (t : Nat) : MediaItem :=
  { type := none, duration := t, title := none, ratingKey := none,
    showTitle := none, season := none, episode := none, date := none,
    isOffline := some true, channel := none }

/-- The night-block redirect item: `Redirect(data={'duration': night,
'isOffline': True, 'channel': n, 'type': 'redirect'})` in
`Channel.add_channel_at_night`. -/
def mkNightRedirect (night_channel_number : Nat) (length_of_night_block : Nat) :
    MediaItem :=
  { type := some "redirect", duration := length_of_night_block, title := none,
    ratingKey := none, showTitle := none, season := none, episode := none,
    date := none, isOffline := some true,
    channel := some night_channel_number }

/-- Embedding of `helpers.get_non_shows`: an item is a non-show when it has a
`type` attribute other than `'episode'`, or has a `season` attribute that is
falsy (i.e. season `0`; a missing season fails the `_object_has_attribute`
check first). -/
def nonShowPred (it : MediaItem) : Bool :=
  (it.type.isSome && !(it.type == some "episode")) || (it.season == some 0)

/-- Embedding of the guard in `helpers.make_show_dict`: only items with
`type == 'episode'` and a truthy `episode` number are grouped. -/
def showEpPred (it : MediaItem) : Bool :=
  (it.type == some "episode") && truthyNat it.episode

/-- Embedding of `helpers.get_non_shows`. -/
def get_non_shows (media_items : List MediaItem) : List MediaItem :=
  media_items.filter nonShowPred

/-- Embedding of `helpers.remove_non_programs`: keep items with a `type`
attribute other than `'redirect'`. -/
def remove_non_programs (media_items : List MediaItem) : List MediaItem :=
  media_items.filter (fun it => it.type.isSome && !(it.type == some "redirect"))

/-- Loop of `helpers.remove_duplicates_by_attribute` specialised to the
`ratingKey` attribute, with the accumulated `filtered_attr` list as an
explicit argument.  An item with a falsy key (`None` or `""`) is always kept
and its key is never recorded. -/
def removeDuplicatesByKeyAux : List MediaItem → List String → List MediaItem
  | [], _ => []
  | it :: rest, seen =>
    match it.ratingKey with
    | none => it :: removeDuplicatesByKeyAux rest seen
    | some k =>
      if k = "" then it :: removeDuplicatesByKeyAux rest seen
      else if k ∈ seen then removeDuplicatesByKeyAux rest seen
      else it :: removeDuplicatesByKeyAux rest (seen ++ [k])

/-- Embedding of `helpers.remove_duplicates_by_attribute(items, 'ratingKey')`. -/
def remove_duplicates_by_attribute (items : List MediaItem) : List MediaItem :=
  removeDuplicatesByKeyAux items []

/-- Embedding of `helpers.remove_duplicate_media_items`: drop non-programs
(redirects and type-less items), then deduplicate by `ratingKey`. -/
def remove_duplicate_media_items (media_items : List MediaItem) : List MediaItem :=
  remove_duplicates_by_attribute (remove_non_programs media_items)

/-- Embedding of `helpers.get_needed_flex_time`.  `minute_start` is the
wall-clock phase offset (`30` if `datetime.utcnow().minute >= 30` else `0`);
it is an explicit argument because the Python function reads the clock.
`allowed_minutes_time_frame = 0` raises `ZeroDivisionError` in the source
(`minute_start % 0`), modelled as `none`. -/
def get_needed_flex_time (item_time_milliseconds : Nat)
    (allowed_minutes_time_frame : Nat) (minute_start : Nat) : Option Nat :=
  if allowed_minutes_time_frame = 0 then none
  else
    let allowed_milliseconds_time_frame :=
      (allowed_minutes_time_frame + minute_start % allowed_minutes_time_frame)
        * 60 * 1000
    let remainder :=
      allowed_milliseconds_time_frame -
        item_time_milliseconds % allowed_milliseconds_time_frame
    if remainder = allowed_milliseconds_time_frame then some 0 else some remainder

/-- Loop of `helpers._get_first_x_minutes_of_programs`: greedily take items
while the running total stays within the budget, stopping at the first item
that does not fit.  The budget is an `Int` because
`Channel.add_channel_at_night_alt` can compute a negative minute budget. -/
def firstXMinutesAux (milliseconds : Int) :
    List MediaItem → Nat → List MediaItem × Nat
  | [], running_total => ([], running_total)
  | program :: rest, running_total =>
    if ((running_total + program.duration : Nat) : Int) ≤ milliseconds then
      let r := firstXMinutesAux milliseconds rest (running_total + program.duration)
      (program :: r.1, r.2)
    else ([], running_total)

/-- Embedding of `helpers._get_first_x_minutes_of_programs`. -/
def get_first_x_minutes_of_programs (programs : List MediaItem) (minutes : Int) :
    List MediaItem × Nat :=
  firstXMinutesAux (minutes * 60 * 1000) programs 0

/-- Embedding of `helpers._get_first_x_minutes_of_programs_return_unused`:
the same greedy selection, plus the list of programs that are not members of
the selection (`program not in programs_to_return`), in original order. -/
def get_first_x_minutes_of_programs_return_unused (programs : List MediaItem)
    (minutes : Int) : List MediaItem × Nat × List MediaItem :=
  let r := get_first_x_minutes_of_programs programs minutes
  (r.1, r.2, programs.filter (fun p => !(r.1.contains p)))

/-- Embedding of the filter in `Channel._delete_all_offline_times`: keep a
program when `not program.isOffline or program.type == 'redirect'`. -/
def delete_all_offline_times_filter (programs : List MediaItem) : List MediaItem :=
  programs.filter (fun it => !truthyBool it.isOffline || it.type == some "redirect")

/-- Embedding of `Channel.pad_times`: strip the pre-existing offline pads
(when nothing survives, `_delete_all_offline_times` returns `False` and
`pad_times` leaves the lineup alone, modelled by returning the input), then
interleave each kept program with an offline pad of the needed flex time when
that is positive.  A `ZeroDivisionError` inside `get_needed_flex_time`
propagates (`none`). -/
def pad_times (programs : List MediaItem) (start_every_x_minutes : Nat)
    (minute_start : Nat) : Option (List MediaItem) :=
  let kept := delete_all_offline_times_filter programs
  if kept.isEmpty then some programs
  else
    (kept.mapM (fun program =>
      (get_needed_flex_time program.duration start_every_x_minutes minute_start).map
        (fun filler_time_needed =>
          if filler_time_needed > 0 then [program, mkOfflinePad filler_time_needed]
          else [program]))).map List.flatten

/-- Embedding of `helpers.get_milliseconds_between_two_hours`: the difference
between `end_hour:00` and `start_hour:00`, moving `end_hour` to the next day
when it is smaller than `start_hour`. -/
def get_milliseconds_between_two_hours (start_hour end_hour : Int) : Int :=
  (((if end_hour < start_hour then end_hour + 24 else end_hour) - start_hour)
    * 3600) * 1000

/-- One iteration body of the `while programs_left` loop of
`Channel.add_channel_at_night`: the extracted day selection, an offline pad
when the extraction fell short of `length_of_regular_block`, and the night
redirect. -/
def nightCycle (night_channel_number : Nat)
    (length_of_night_block length_of_regular_block : Nat) (minutes : Int)
    (programs : List MediaItem) : List MediaItem :=
  let r := get_first_x_minutes_of_programs_return_unused programs minutes
  (if r.2.1 < length_of_regular_block then
      r.1 ++ [mkOfflinePad (length_of_regular_block - r.2.1)]
    else r.1) ++ [mkNightRedirect night_channel_number length_of_night_block]

/-- One day/night cycle loop of `Channel.add_channel_at_night` (the `while
programs_left` loop), returning the list of cycles it appends.  Each cycle is
the extracted day prefix, an offline pad when the extraction fell short of
`length_of_regular_block`, and the night redirect.  The Python loop has no
bound, so the recursion carries explicit fuel and returns `none` when the
fuel runs out before the leftover-program list is exhausted. -/
def addChannelAtNightLoop (night_channel_number : Nat)
    (length_of_night_block length_of_regular_block : Nat) (minutes : Int) :
    Nat → List MediaItem → Option (List (List MediaItem))
  | _, [] => some []
  | 0, _ :: _ => none
  | fuel + 1, p :: rest =>
    match addChannelAtNightLoop night_channel_number length_of_night_block
        length_of_regular_block minutes fuel
        (get_first_x_minutes_of_programs_return_unused (p :: rest) minutes).2.2 with
    | none => none
    | some cycles =>
      some (nightCycle night_channel_number length_of_night_block
        length_of_regular_block minutes (p :: rest) :: cycles)

/-- The observable channel state that `Channel.add_channel_at_night` and
`Channel.add_channel_at_night_alt` may update: the stored lineup and the
stored `startTime` string. -/
structure ChannelState where
  programs : List MediaItem
  startTime : String
deriving DecidableEq, Repr

/-- Validation of `Channel.add_channel_at_night`, in source order: hour range
checks, the equal-hour check, then the existence of the target channel. -/
def addChannelAtNightError (channel_numbers : List Nat)
    (night_channel_number : Nat) (start_hour end_hour : Int) : Option String :=
  if start_hour > 23 ∨ start_hour < 0 then
    some "start_hour must be between 0 and 23."
  else if end_hour > 23 ∨ end_hour < 0 then
    some "end_hour must be between 0 and 23."
  else if start_hour = end_hour then
    some "You cannot add a 24-hour Channel at Night."
  else if night_channel_number ∉ channel_numbers then
    some "Channel does not exist."
  else none

/-- Embedding of `Channel.add_channel_at_night` acting on the channel state.
A raised validation exception leaves the state untouched.  `new_start_time`
stands for the wall-clock-derived start time string the method computes.
When the interleaving loop never terminates the method never reaches
`self.update(...)`, so the state is also untouched in the `none` case; the
fuel `programs.length` is sufficient whenever the loop terminates at all. -/
def runAddChannelAtNight (st : ChannelState) (channel_numbers : List Nat)
    (night_channel_number : Nat) (start_hour end_hour : Int)
    (new_start_time : String) : ChannelState :=
  match addChannelAtNightError channel_numbers night_channel_number
      start_hour end_hour with
  | some _ => st
  | none =>
    let length_of_night_block :=
      (get_milliseconds_between_two_hours start_hour end_hour).toNat
    let length_of_regular_block := 24 * 60 * 60 * 1000 - length_of_night_block
    match addChannelAtNightLoop night_channel_number length_of_night_block
        length_of_regular_block ((length_of_regular_block : Int) / 1000 / 60)
        st.programs.length st.programs with
    | none => st
    | some cycles =>
      let final_programs_to_add := cycles.flatten
      { startTime := new_start_time,
        programs :=
          if final_programs_to_add.isEmpty then st.programs
          else final_programs_to_add }

/-- Validation of `Channel.add_channel_at_night_alt`, in source order: hour
range checks, existence of the target channel, then the zero-length night
block check (`length_of_night_block == 0`, i.e. equal hours). -/
def addChannelAtNightAltError (channel_numbers : List Nat)
    (night_channel_number : Nat) (start_hour end_hour : Int) : Option String :=
  if start_hour > 23 ∨ start_hour < 0 then
    some "start_hour must be between 0 and 23."
  else if end_hour > 23 ∨ end_hour < 0 then
    some "end_hour must be between 0 and 23."
  else if night_channel_number ∉ channel_numbers then
    some "Channel does not exist."
  else if (get_milliseconds_between_two_hours start_hour end_hour).toNat = 0 then
    some "You cannot add a 24-hour Channel at Night."
  else none

/-- Embedding of `Channel.add_channel_at_night_alt` acting on the channel
state.  `time_until_night_block_start` is the wall-clock-derived millisecond
gap the method computes from the channel start time; it is an explicit
argument.  The alternative variant never updates `startTime`. -/
def runAddChannelAtNightAlt (st : ChannelState) (channel_numbers : List Nat)
    (night_channel_number : Nat) (start_hour end_hour : Int)
    (time_until_night_block_start : Int) : ChannelState :=
  match addChannelAtNightAltError channel_numbers night_channel_number
      start_hour end_hour with
  | some _ => st
  | none =>
    let length_of_night_block :=
      (get_milliseconds_between_two_hours start_hour end_hour).toNat
    let length_of_regular_block := 24 * 60 * 60 * 1000 - length_of_night_block
    let minutes_first := Int.tdiv (Int.tdiv time_until_night_block_start 1000) 60
    let r := get_first_x_minutes_of_programs st.programs minutes_first
    if r.1.length = st.programs.length then
      let withPad :=
        if (r.2 : Int) < time_until_night_block_start then
          r.1 ++ [mkOfflinePad (time_until_night_block_start - r.2).toNat]
        else r.1
      let final := withPad ++
        [mkNightRedirect night_channel_number length_of_night_block]
      { st with programs := if final.isEmpty then st.programs else final }
    else
      let r' := get_first_x_minutes_of_programs_return_unused st.programs
        minutes_first
      let withPad :=
        if (r'.2.1 : Int) < time_until_night_block_start then
          r'.1 ++ [mkOfflinePad (time_until_night_block_start - r'.2.1).toNat]
        else r'.1
      let firstCycle := withPad ++
        [mkNightRedirect night_channel_number length_of_night_block]
      match addChannelAtNightLoop night_channel_number length_of_night_block
          length_of_regular_block ((length_of_regular_block : Int) / 1000 / 60)
          r'.2.2.length r'.2.2 with
      | none => st
      | some cycles =>
        let final := firstCycle ++ cycles.flatten
        { st with programs := if final.isEmpty then st.programs else final }

/-! Show grouping dictionaries.

Python dicts preserve insertion order; they are modelled as association
lists.  `updD k f d` is `d[k] = f(d.get(k))`: an existing key keeps its
position, a fresh key is appended at the end. -/

/-- Python dict update `d[k] = f(d.get(k))` on an insertion-ordered
association list. -/
def updD {κ ν : Type} [DecidableEq κ] (k : κ) (f : Option ν → ν) :
    List (κ × ν) → List (κ × ν)
  | [] => [(k, f none)]
  | (a, b) :: t => if a = k then (a, f (some b)) :: t else (a, b) :: updD k f t

/-- Python dict lookup `d.get(k)` on an association list. -/
def lookupD {κ ν : Type} [DecidableEq κ] (k : κ) : List (κ × ν) → Option ν
  | [] => none
  | (a, b) :: t => if a = k then some b else lookupD k t

/-- Episode-number-keyed inner dictionary of `make_show_dict`. -/
abbrev EpisodeDict := List (Option Nat × MediaItem)

/-- Season-number-keyed middle dictionary of `make_show_dict`. -/
abbrev SeasonDict := List (Option Nat × EpisodeDict)

/-- Show-title-keyed outer dictionary of `make_show_dict`. -/
abbrev ShowDict := List (Option String × SeasonDict)

/-- Inner insertion of `make_show_dict`:
`show_dict[showTitle][season][episode] = item` below a fixed show, creating
the missing season/episode levels. -/
def insertSeasonEp (sd : SeasonDict) (it : MediaItem) : SeasonDict :=
  updD it.season (fun ed => updD it.episode (fun _ => it) (ed.getD [])) sd

/-- One insertion step of `make_show_dict`. -/
def insertEpisode (d : ShowDict) (it : MediaItem) : ShowDict :=
  updD it.showTitle (fun sd => insertSeasonEp (sd.getD []) it) d

/-- Embedding of `helpers.make_show_dict`: single pass over the items,
inserting each `'episode'`-typed item with a truthy episode number at its
(showTitle, season, episode) position, last write winning. -/
def make_show_dict (media_items : List MediaItem) : ShowDict :=
  media_items.foldl
    (fun d it => if showEpPred it then insertEpisode d it else d) []

/-- Comparison used for sorting optional numeric dict keys.  On two `some`
keys it is exactly Python's `int` comparison; Python raises a `TypeError`
when comparing `None` with an `int`, so every theorem below that sorts by
this comparison carries a `wfItem` hypothesis forcing the season and
episode keys to be `some`, keeping the raising inputs outside its domain
(the `none` branches only make the function total). -/
def leOptNat : Option Nat → Option Nat → Bool
  | none, _ => true
  | some _, none => false
  | some a, some b => decide (a ≤ b)

/-- Comparison used for sorting optional string dict keys and titles: on
two `some` keys, Python's case-sensitive lexicographic `str` comparison.
Comparing `None` with a `str` raises a `TypeError` in Python, so the
theorems sorting by this comparison require (through `wfItem`) a present
show title on every episode and only ever sort titled items, keeping the
raising inputs outside their domain. -/
def leOptStr : Option String → Option String → Bool
  | none, _ => true
  | some _, none => false
  | some a, some b => decide (a ≤ b)

/-- Stable insertion of one element in front of the first position whose
element is not below it. -/
def orderedInsertB {α : Type} (le : α → α → Bool) (a : α) : List α → List α
  | [] => [a]
  | b :: l => if le a b then a :: b :: l else b :: orderedInsertB le a l

/-- Stable insertion sort.  Python's `sorted` is a stable sort; any two
stable sorts by the same key produce the same list, so this structural
implementation (which kernel-reduces, unlike `List.mergeSort`) is an exact
model of it. -/
def insertionSortB {α : Type} (le : α → α → Bool) : List α → List α
  | [] => []
  | a :: l => orderedInsertB le a (insertionSortB le l)

/-- Python `sorted(d.items())` on a dict: the keys are pairwise distinct, so
the tuple comparison is decided by the key. -/
def sortByKey {κ ν : Type} (le : κ → κ → Bool) (d : List (κ × ν)) :
    List (κ × ν) :=
  insertionSortB (fun a b => le a.1 b.1) d

/-- Embedding of `helpers.order_show_dict`: sorts the episodes inside each
season and the seasons inside each show; the show order (dict insertion
order, i.e. first appearance) is untouched. -/
def order_show_dict (d : ShowDict) : ShowDict :=
  d.map (fun p =>
    (p.1, sortByKey leOptNat (p.2.map (fun q => (q.1, sortByKey leOptNat q.2)))))

/-- Embedding of `helpers._sort_shows_by_season_order`: flattens a show
dictionary with shows sorted by title, seasons and episodes sorted
numerically. -/
def sort_shows_by_season_order (d : ShowDict) : List MediaItem :=
  (sortByKey leOptStr d).flatMap (fun p =>
    (sortByKey leOptNat p.2).flatMap (fun q =>
      (sortByKey leOptNat q.2).map Prod.snd))

/-- Per-show flattening in stored order (used by `condense_show_dict` and
the per-show queues of the cyclical and block shuffles). -/
def flattenSeasonDict (sd : SeasonDict) : List MediaItem :=
  sd.flatMap (fun q => q.2.map Prod.snd)

/-- Whole-dictionary flattening in stored order. -/
def flattenShowDict (d : ShowDict) : List MediaItem :=
  d.flatMap (fun p => flattenSeasonDict p.2)

/-- The (showTitle, season, episode) identity of an episode item. -/
def key3 (it : MediaItem) : Option String × Option Nat × Option Nat :=
  (it.showTitle, it.season, it.episode)

/-- Entries of an episode dictionary stored below show `t`, season `s`,
tagged with their dictionary position. -/
def seasonEntries (t : Option String) (s : Option Nat) (ed : EpisodeDict) :
    List ((Option String × Option Nat × Option Nat) × MediaItem) :=
  ed.map (fun r => ((t, s, r.1), r.2))

/-- Entries of a season dictionary stored below show `t`. -/
def showEntries (t : Option String) (sd : SeasonDict) :
    List ((Option String × Option Nat × Option Nat) × MediaItem) :=
  sd.flatMap (fun q => seasonEntries t q.1 q.2)

/-- All (position, item) entries of a show dictionary. -/
def dictEntries (d : ShowDict) :
    List ((Option String × Option Nat × Option Nat) × MediaItem) :=
  d.flatMap (fun p => showEntries p.1 p.2)

/-! Ordering strategies. -/

/-- Title key of `helpers.sort_media_alphabetically`: the show title for
episodes, the item title otherwise. -/
def alphaKey (it : MediaItem) : Option String :=
  if it.type == some "episode" then it.showTitle else it.title

/-- Embedding of `helpers.sort_media_alphabetically`: items with a `title`
attribute stably sorted by the alphabetical key, items without appended in
original order. -/
def sort_media_alphabetically (media_items : List MediaItem) : List MediaItem :=
  insertionSortB (fun a b => leOptStr (alphaKey a) (alphaKey b))
      (media_items.filter (fun it => it.title.isSome)) ++
    media_items.filter (fun it => !it.title.isSome)

/-- Gregorian leap-year test, as `datetime` applies it. -/
def isLeapYear (y : Nat) : Bool :=
  (y % 4 == 0 && y % 100 != 0) || y % 400 == 0

/-- Length of month `m` of year `y`, as `datetime` validates it. -/
def daysInMonth (y m : Nat) : Nat :=
  if m = 2 then (if isLeapYear y then 29 else 28)
  else if m = 4 ∨ m = 6 ∨ m = 9 ∨ m = 11 then 30
  else 31

/-- Parse of a `%Y-%m-%d` release-date string, accepting exactly what
`datetime.strptime` (the template of `helpers.sort_media_by_release_date`)
accepts: a four-digit year of at least 1, a one- or two-digit month in
1..12 and a one- or two-digit day in 1..the length of that month of that
year (leap years included); anything else raises `ValueError` in the
source. -/
def parseDate (s : String) : Option (Nat × Nat × Nat) :=
  match s.splitOn "-" with
  | [y, m, d] =>
    match y.toNat?, m.toNat?, d.toNat? with
    | some yn, some mn, some dn =>
      if y.length = 4 ∧ m.length ≤ 2 ∧ d.length ≤ 2 ∧
          1 ≤ yn ∧ 1 ≤ mn ∧ mn ≤ 12 ∧ 1 ≤ dn ∧ dn ≤ daysInMonth yn mn
      then some (yn, mn, dn) else none
    | _, _, _ => none
  | _ => none

/-- Lexicographic comparison of parsed dates, `none` first (unreachable on
the lists actually sorted, whose dates all parse). -/
def leDateKey (a b : Option (Nat × Nat × Nat)) : Bool :=
  match a, b with
  | none, _ => true
  | some _, none => false
  | some x, some y => decide (x.1 < y.1 ∨ (x.1 = y.1 ∧ (x.2.1 < y.2.1 ∨
      (x.2.1 = y.2.1 ∧ x.2.2 ≤ y.2.2))))

/-- Embedding of `helpers.sort_media_by_release_date`: items carrying a
`date` attribute stably sorted by parsed date — a parse failure raises in
the source, modelled as `none` — followed by the remaining items sorted
alphabetically. -/
def sort_media_by_release_date (media_items : List MediaItem) :
    Option (List MediaItem) :=
  if (media_items.filter (fun it => it.date.isSome)).all
      (fun it => (parseDate (it.date.getD "")).isSome) then
    some (insertionSortB
        (fun a b => leDateKey (parseDate (a.date.getD ""))
          (parseDate (b.date.getD "")))
        (media_items.filter (fun it => it.date.isSome)) ++
      sort_media_alphabetically
        (media_items.filter (fun it => !it.date.isSome)))
  else none

/-- Embedding of `helpers.sort_media_by_season_order`: the grouped shows
flattened in show/season/episode order, then the non-shows alphabetically. -/
def sort_media_by_season_order (media_items : List MediaItem) :
    List MediaItem :=
  sort_shows_by_season_order (make_show_dict media_items) ++
    sort_media_alphabetically (get_non_shows media_items)

/-- Embedding of `helpers.sort_media_by_duration`: drops the redirects
(and type-less items) and stably sorts the rest by duration. -/
def sort_media_by_duration (media_items : List MediaItem) : List MediaItem :=
  insertionSortB (fun a b => decide (a.duration ≤ b.duration))
    (media_items.filter (fun it =>
      it.type.isSome && !(it.type == some "redirect")))

/-- One swap `x[i], x[j] = x[j], x[i]` of Python list elements (identity
when an index is out of range, which `random.shuffle` never produces). -/
def swapAt2 (l : List MediaItem) (i j : Nat) : List MediaItem :=
  match l.get? i, l.get? j with
  | some a, some b => (l.set i b).set j a
  | _, _ => l

/-- The Fisher–Yates backward loop of `random.shuffle`: for `i` from
`n - 1` down to `1`, swap position `i` with the oracle-chosen position
`j ≤ i`. -/
def fisherYatesAux (oracle : Nat → Nat) : Nat → List MediaItem → List MediaItem
  | 0, l => l
  | i + 1, l => fisherYatesAux oracle i (swapAt2 l (i + 1) (oracle (i + 1) % (i + 2)))

/-- Embedding of `helpers.shuffle` / `random.shuffle`, with the random
draws supplied by `oracle`. -/
def shuffleList (oracle : Nat → Nat) (l : List MediaItem) : List MediaItem :=
  fisherYatesAux oracle (l.length - 1) l

/-- Embedding of `helpers.sort_media_randomly`. -/
def sort_media_randomly (oracle : Nat → Nat) (media_items : List MediaItem) :
    List MediaItem :=
  shuffleList oracle media_items

/-- Embedding of `helpers.rotate_items` operating as
`collections.deque.rotate`: a right rotation by the random shift
`s ∈ [0, len-1]`, expressed through `List.rotate` (a left rotation). -/
def rotate_items (l : List MediaItem) (s : Nat) : List MediaItem :=
  l.rotate ((l.length - s % l.length) % l.length)

/-- Fuel-counted emission loop of `helpers.sort_media_cyclical_shuffle`
(the `while len(final_list) != total_item_count` loop).  `queues` holds the
surviving per-show queues in index order (the source's `index_list` keeps
exactly the indices of the non-exhausted queues); `catOracle` models
`weighted_choice_by_sizes_dict` (`true` picks the show pool; consulted only
when both pools are non-empty, since the source deletes an empty pool from
the choice dict) and `showOracle` models `random_choice` over the surviving
queues.  Fuel `total_item_count` stops the loop exactly when the source
does; the source never reads from an empty queue, so those branches are
unreachable on the inputs of the theorems below.  `cyclicalPickShow` is the
pool choice of one iteration. -/
def cyclicalPickShow (catOracle : Nat → Bool) (fuel : Nat)
    (queues : List (List MediaItem)) (nonShows : List MediaItem) : Bool :=
  if nonShows.isEmpty then true
  else if queues.isEmpty then false
  else catOracle fuel

/-- Emission loop of the cyclical shuffle; see the comment above. -/
def cyclicalLoop (catOracle : Nat → Bool) (showOracle : Nat → Nat) :
    Nat → List (List MediaItem) → List MediaItem → List MediaItem
  | 0, _, _ => []
  | fuel + 1, queues, nonShows =>
    if queues.isEmpty ∧ nonShows.isEmpty then []
    else
      if cyclicalPickShow catOracle fuel queues nonShows then
        match queues.get? (showOracle fuel % queues.length) with
        | none => []
        | some [] => []
        | some (x :: qrest) =>
          x :: cyclicalLoop catOracle showOracle fuel
            (if qrest.isEmpty then queues.eraseIdx (showOracle fuel % queues.length)
              else queues.set (showOracle fuel % queues.length) qrest)
            nonShows
      else
        match nonShows with
        | [] => []
        | x :: nrest => x :: cyclicalLoop catOracle showOracle fuel queues nrest

/-- Embedding of `helpers.sort_media_cyclical_shuffle`: the non-shows are
shuffled, each show's season/episode-ordered episode list is rotated by a
random offset, and items are then drawn one at a time from a
size-weighted-random choice of the two pools. -/
def sort_media_cyclical_shuffle (nsOracle rotOracle showOracle : Nat → Nat)
    (catOracle : Nat → Bool) (media_items : List MediaItem) : List MediaItem :=
  cyclicalLoop catOracle showOracle media_items.length
    (((order_show_dict (make_show_dict media_items)).enum).map
      (fun p => rotate_items (flattenSeasonDict p.2.2) (rotOracle p.1)))
    (shuffleList nsOracle (get_non_shows media_items))

/-- Round loop of the non-randomized `helpers.sort_media_block_shuffle`:
each round walks the shows in dictionary order, popping up to
`block_length` episodes from each queue, until every queue is exhausted.
One unit of fuel per round; `total episode count` rounds always suffice
when `block_length ≥ 1`. -/
def blockRoundLoop (block_length : Nat) :
    Nat → List (List MediaItem) → List MediaItem
  | 0, _ => []
  | fuel + 1, queues =>
    if queues.all List.isEmpty then []
    else
      (queues.map (fun q => q.take block_length)).flatten ++
        blockRoundLoop block_length fuel (queues.map (fun q => q.drop block_length))

/-- Pick loop of the randomized `helpers.sort_media_block_shuffle`: pick a
random show (exhausted shows stay in the dict until picked, then are
deleted), pop `random.randint(1, block_length)` episodes — modelled as
`1 + sizeOracle fuel % block_length` — deleting the show when the pop count
exceeds what remains. -/
def blockRandomLoop (block_length : Nat) (showOracle sizeOracle : Nat → Nat) :
    Nat → List (List MediaItem) → List MediaItem
  | 0, _ => []
  | fuel + 1, queues =>
    if queues.all List.isEmpty then []
    else
      match queues.get? (showOracle fuel % queues.length) with
      | none => []
      | some q =>
        if q.length < 1 + sizeOracle fuel % block_length then
          q ++ blockRandomLoop block_length showOracle sizeOracle fuel
            (queues.eraseIdx (showOracle fuel % queues.length))
        else
          q.take (1 + sizeOracle fuel % block_length) ++
            blockRandomLoop block_length showOracle sizeOracle fuel
              (queues.set (showOracle fuel % queues.length)
                (q.drop (1 + sizeOracle fuel % block_length)))

/-- Embedding of `helpers.sort_media_block_shuffle`: the grouped shows are
condensed to per-show episode queues in season/episode order, interleaved in
blocks (round-robin, or randomized picks), and the non-shows are appended in
original order. -/
def sort_media_block_shuffle (media_items : List MediaItem)
    (block_length : Nat) (randomize : Bool)
    (showOracle sizeOracle : Nat → Nat) : List MediaItem :=
  (if randomize then
      blockRandomLoop block_length showOracle sizeOracle
        ((((order_show_dict (make_show_dict media_items)).map
            (fun p => flattenSeasonDict p.2)).map List.length).sum +
          ((order_show_dict (make_show_dict media_items)).map
            (fun p => flattenSeasonDict p.2)).length)
        ((order_show_dict (make_show_dict media_items)).map
          (fun p => flattenSeasonDict p.2))
    else
      blockRoundLoop block_length
        ((((order_show_dict (make_show_dict media_items)).map
            (fun p => flattenSeasonDict p.2)).map List.length).sum)
        ((order_show_dict (make_show_dict media_items)).map
          (fun p => flattenSeasonDict p.2))) ++
    get_non_shows media_items

/-- Total duration of a show, as computed by
`helpers.add_durations_to_show_dict`: the sum of its episode durations. -/
def showDictDuration (sd : SeasonDict) : Nat :=
  ((flattenSeasonDict sd).map MediaItem.duration).sum

/-- Acceptance walk of `helpers.balance_shows` over one show's episodes in
season/episode order: include an episode while
`(runningDuration + episodeDuration) / shortest <= margin`, and stop the
show at the first failure.  The Python float division is modelled with
exact rationals. -/
def acceptEpisodes (shortest : Nat) (margin : ℚ) :
    Nat → List MediaItem → List MediaItem
  | _, [] => []
  | running, e :: rest =>
    if ((running : ℚ) + (e.duration : ℚ)) / (shortest : ℚ) ≤ margin then
      e :: acceptEpisodes shortest margin (running + e.duration) rest
    else []

/-- Embedding of `helpers.balance_shows`.  `min(show_durations)` raises a
`ValueError` on an episode-free input and the float division raises
`ZeroDivisionError` when the shortest show length is zero; both are
modelled as `none`. -/
def balance_shows (media_items : List MediaItem) (margin_of_correction : ℚ) :
    Option (List MediaItem) :=
  match ((order_show_dict (make_show_dict media_items)).map
      (fun p => showDictDuration p.2)).min? with
  | none => none
  | some shortest =>
    if shortest = 0 then none
    else
      some (((order_show_dict (make_show_dict media_items)).flatMap
          (fun p => acceptEpisodes shortest (1 + margin_of_correction) 0
            (flattenSeasonDict p.2))) ++
        sort_media_alphabetically (get_non_shows media_items))

/-- Well-formed timed item: it carries a kind, and an episode-kind item has
a truthy episode number, a present season other than `0` and a present
show title.  On such items the non-show predicate is exactly the
complement of the grouping predicate (a season-0 episode would land in
both pools, a type-less or episode-less item in neither), and every dict
key and alphabetical key the orderings compare is `some`, so Python's
`sorted` never faces the `None`-versus-value comparisons it raises
`TypeError` on. -/
def wfItem (it : MediaItem) : Prop :=
  it.type.isSome = true ∧
    (it.type = some "episode" →
      truthyNat it.episode = true ∧ it.season ≠ some 0 ∧
        it.season.isSome = true ∧ it.showTitle.isSome = true)

/-- Decidability of item well-formedness, for concrete witnesses. -/
instance (it : MediaItem) : Decidable (wfItem it) := by
  unfold wfItem
  infer_instance

/-- Structural well-formedness of a show dictionary: no show maps to an
empty season dict and no season maps to an empty episode dict (the source
only ever creates non-empty levels). -/
def wfDict (d : ShowDict) : Prop :=
  ∀ p ∈ d, p.2 ≠ [] ∧ ∀ q ∈ p.2, q.2 ≠ []

/-- Structural invariant of the dictionaries the grouping fold builds: the
keys at every level are distinct (a Python dict never stores a key twice),
and each item is stored exactly at its own (showTitle, season, episode)
position. -/
def dictInv (d : ShowDict) : Prop :=
  (d.map Prod.fst).Nodup ∧
    ∀ p ∈ d, (p.2.map Prod.fst).Nodup ∧
      ∀ q ∈ p.2, (q.2.map Prod.fst).Nodup ∧
        ∀ r ∈ q.2, r.2.showTitle = p.1 ∧ r.2.season = q.1 ∧ r.2.episode = r.1

/-! Specification-side description of the Balance Shows strategy, written
from its documented behaviour (shows walked one at a time, each show's
episodes in season/episode order, greedy duration acceptance against the
shortest show, non-shows appended alphabetically) rather than from the
grouping code, to be compared with the embedding `balance_shows` above. -/

/-- Season-then-episode lexicographic comparison of two episode items. -/
def leSeasonEpisode (a b : MediaItem) : Bool :=
  if a.season = b.season then leOptNat a.episode b.episode
  else leOptNat a.season b.season

/-- The (season, episode) coordinates of an item. -/
def seKey (it : MediaItem) : Option Nat × Option Nat :=
  (it.season, it.episode)

/-- Show titles in order of first appearance among the episode items. -/
def specShowTitles (media_items : List MediaItem) : List (Option String) :=
  (media_items.filter showEpPred).foldl
    (fun acc it => if it.showTitle ∈ acc then acc else acc ++ [it.showTitle])
    []

/-- One show's episodes, in season/episode order. -/
def specShowEpisodes (media_items : List MediaItem) (t : Option String) :
    List MediaItem :=
  insertionSortB leSeasonEpisode
    ((media_items.filter showEpPred).filter (fun it => it.showTitle == t))

/-- Specification-side Balance Shows: for each show, in order of first
appearance, walk its episodes in season/episode order and keep a prefix of
them by the greedy duration test against the shortest show's total length;
append the non-shows alphabetically.  Fails (as the code does) when the
input has no episodes or the shortest show length is zero. -/
def balanceSpec (media_items : List MediaItem) (margin_of_correction : ℚ) :
    Option (List MediaItem) :=
  match ((specShowTitles media_items).map
      (fun t =>
        ((specShowEpisodes media_items t).map MediaItem.duration).sum)).min? with
  | none => none
  | some shortest =>
    if shortest = 0 then none
    else
      some (((specShowTitles media_items).flatMap
          (fun t => acceptEpisodes shortest (1 + margin_of_correction) 0
            (specShowEpisodes media_items t))) ++
        sort_media_alphabetically (get_non_shows media_items))

/-! Sample items used by the concrete witness instantiations below. -/

/-- Sample movie item with a rating key. -/
def sampleMovie : MediaItem :=
  { type := some "movie", duration := 40000, title := some "Zeta",
    ratingKey := some "m1", showTitle := some "Zeta", season := some 1,
    episode := some 1, date := some "2001-02-03", isOffline := none,
    channel := none }

/-- Sample episode item, show Alpha season 1 episode 1. -/
def sampleEpA11 : MediaItem :=
  { type := some "episode", duration := 2000, title := some "a11",
    ratingKey := some "a11", showTitle := some "Alpha", season := some 1,
    episode := some 1, date := some "2000-01-01", isOffline := none,
    channel := none }

/-- Sample episode item, show Alpha season 1 episode 2. -/
def sampleEpA12 : MediaItem :=
  { type := some "episode", duration := 1000, title := some "a12",
    ratingKey := some "a12", showTitle := some "Alpha", season := some 1,
    episode := some 2, date := some "2000-02-01", isOffline := none,
    channel := none }

/-- Sample episode item, show Beta season 2 episode 1. -/
def sampleEpB21 : MediaItem :=
  { type := some "episode", duration := 3000, title := some "b21",
    ratingKey := some "b21", showTitle := some "Beta", season := some 2,
    episode := some 1, date := some "1999-12-31", isOffline := none,
    channel := none }

/-- Program used to exhibit the diverging night-block loop: its duration
exceeds the 12-hour day block of the counterexample by one millisecond. -/
def bigProgram : MediaItem :=
  { type := some "movie", duration := 43200001, title := some "Big",
    ratingKey := some "big", showTitle := some "Big", season := some 1,
    episode := some 1, date := some "2001-01-01", isOffline := none,
    channel := none }

/-! Arithmetic core of the padding function. -/

/-- Arithmetic behaviour of the Python expression `g - (D % g)` with the
"full pad is reported as zero" correction, for an abstract grid length `g`. -/
theorem flex_pad_spec (D g : Nat) (hg : 0 < g) :
    (D + (if g - D % g = g then 0 else g - D % g)) % g = 0 ∧
    (if g - D % g = g then 0 else g - D % g) < g ∧
    (D % g = 0 → (if g - D % g = g then 0 else g - D % g) = 0) := by
  have hmod : D % g < g := Nat.mod_lt _ hg
  by_cases hr : D % g = 0
  · have hif : g - D % g = g := by omega
    rw [if_pos hif]
    exact ⟨by simpa using hr, hg, fun _ => rfl⟩
  · have hif : ¬(g - D % g = g) := by omega
    rw [if_neg hif]
    obtain ⟨t, ht0, ht⟩ : ∃ t, t % g = 0 ∧ D = t + D % g :=
      ⟨g * (D / g), Nat.mul_mod_right _ _, by
        conv_lhs => rw [(Nat.div_add_mod D g).symm]⟩
    refine ⟨?_, by omega, fun hz => absurd hz hr⟩
    have hsum : D + (g - D % g) = t + g := by omega
    rw [hsum, Nat.add_mod, ht0, Nat.mod_self]
    simp

/-- C6: for every item duration `D` and grid interval `G > 0` minutes, with
grid length `(G + minuteStart % G) * 60000` milliseconds, the padding
returned by `get_needed_flex_time` makes `D + pad` exactly divisible by the
grid length, lies in `[0, gridLengthMs)`, and is zero when `D` is already a
multiple of the grid length. -/
theorem c6_padding_grid_alignment (D G m : Nat) (hG : 0 < G) :
    ∃ pad, get_needed_flex_time D G m = some pad ∧
      (D + pad) % ((G + m % G) * 60 * 1000) = 0 ∧
      pad < (G + m % G) * 60 * 1000 ∧
      (D % ((G + m % G) * 60 * 1000) = 0 → pad = 0) := by
  have hgpos : 0 < (G + m % G) * 60 * 1000 := by
    have h1 : 0 < G + m % G := by omega
    have h2 : 0 < (G + m % G) * 60 := Nat.mul_pos h1 (by norm_num)
    exact Nat.mul_pos h2 (by norm_num)
  have hGne : ¬ G = 0 := by omega
  obtain ⟨h1, h2, h3⟩ := flex_pad_spec D ((G + m % G) * 60 * 1000) hgpos
  refine ⟨_, ?_, h1, h2, h3⟩
  unfold get_needed_flex_time
  rw [if_neg hGne]
  split <;> rename_i hsplit
  · rw [if_pos hsplit]
  · rw [if_neg hsplit]

/-- C6 witness: duration 1,700,000 ms on a 30-minute grid with phase offset 0
needs a 100,000 ms pad. -/
theorem c6_padding_grid_alignment_witness :
    0 < 30 ∧
    ∃ pad, get_needed_flex_time 1700000 30 0 = some pad ∧
      (1700000 + pad) % ((30 + 0 % 30) * 60 * 1000) = 0 ∧
      pad < (30 + 0 % 30) * 60 * 1000 ∧
      (1700000 % ((30 + 0 % 30) * 60 * 1000) = 0 → pad = 0) :=
  ⟨by decide, c6_padding_grid_alignment 1700000 30 0 (by decide)⟩

/-- C7: `get_needed_flex_time` fails (ZeroDivisionError in the source) for
`allowed_minutes_time_frame = 0`, although the `pad_times` docstring
documents `0` as a valid argument meaning hourly alignment; consequently
`pad_times` with `start_every_x_minutes = 0` fails on every lineup that
keeps at least one program after offline-pad stripping. -/
theorem c7_zero_time_frame_fails :
    (∀ D m, get_needed_flex_time D 0 m = none) ∧
    (∀ programs m, (delete_all_offline_times_filter programs).isEmpty = false →
      pad_times programs 0 m = none) := by
  constructor
  · intro D m
    simp [get_needed_flex_time]
  · intro programs m hne
    unfold pad_times
    rw [if_neg (by simp [hne])]
    obtain ⟨x, xs, hx⟩ :=
      List.exists_cons_of_ne_nil (List.isEmpty_eq_false.mp hne)
    rw [hx]
    simp [List.mapM_cons, List.mapM.loop, get_needed_flex_time]

/-- C7 witness: the failing call on a one-movie lineup. -/
theorem c7_zero_time_frame_fails_witness :
    (delete_all_offline_times_filter [sampleMovie]).isEmpty = false ∧
    pad_times [sampleMovie] 0 0 = none :=
  ⟨by decide, c7_zero_time_frame_fails.2 [sampleMovie] 0 (by decide)⟩

/-! Time-box extraction: partition of the input. -/

/-- Unfolding equation for one step of the greedy extraction loop. -/
theorem firstXMinutesAux_cons (ms : Int) (p : MediaItem) (rest : List MediaItem)
    (running : Nat) :
    firstXMinutesAux ms (p :: rest) running =
      if ((running + p.duration : Nat) : Int) ≤ ms then
        ((p :: (firstXMinutesAux ms rest (running + p.duration)).1),
          (firstXMinutesAux ms rest (running + p.duration)).2)
      else ([], running) := by
  rfl

/-- Core partition property of the greedy extraction loop: when the input has
no duplicate occurrences, the selected items followed by the
not-selected-membership filter reconstruct the input exactly. -/
theorem firstXMinutesAux_partition (ms : Int) :
    ∀ (S : List MediaItem) (running : Nat), S.Nodup →
      (firstXMinutesAux ms S running).1 ++
        S.filter (fun p => !((firstXMinutesAux ms S running).1.contains p)) = S := by
  intro S
  induction S with
  | nil => intro running _; rfl
  | cons p rest ih =>
    intro running hnd
    have hp : p ∉ rest := (List.nodup_cons.mp hnd).1
    have hrest : rest.Nodup := (List.nodup_cons.mp hnd).2
    by_cases hfit : ((running + p.duration : Nat) : Int) ≤ ms
    · have hstep :
          firstXMinutesAux ms (p :: rest) running =
            ((p :: (firstXMinutesAux ms rest (running + p.duration)).1),
              (firstXMinutesAux ms rest (running + p.duration)).2) := by
        rw [firstXMinutesAux_cons, if_pos hfit]
      rw [hstep]
      simp only [List.filter_cons]
      have hcontains :
          (!(p :: (firstXMinutesAux ms rest (running + p.duration)).1).contains p) =
            false := by
        simp [List.contains_cons]
      rw [hcontains]
      have hcongr :
          rest.filter
              (fun q =>
                !((p :: (firstXMinutesAux ms rest (running + p.duration)).1).contains q)) =
            rest.filter
              (fun q => !((firstXMinutesAux ms rest (running + p.duration)).1.contains q)) := by
        apply List.filter_congr
        intro q hq
        have hqp : ¬ q = p := fun h => hp (h ▸ hq)
        simp [List.contains_cons, hqp]
      simp only [List.cons_append]
      rw [hcongr]
      exact congrArg (p :: ·) (ih (running + p.duration) hrest)
    · have hstep :
          firstXMinutesAux ms (p :: rest) running = ([], running) := by
        rw [firstXMinutesAux_cons, if_neg hfit]
      rw [hstep]
      simp

/-- C2 amended: for inputs without duplicate occurrences, the time-box
extraction with remainder partitions the input: the selected items followed
by the reported remainder reconstruct the input list exactly (so the
remainder keeps the original relative order of the excluded items). -/
theorem c2_extraction_partition (S : List MediaItem) (minutes : Int)
    (h : S.Nodup) :
    (get_first_x_minutes_of_programs_return_unused S minutes).1 ++
      (get_first_x_minutes_of_programs_return_unused S minutes).2.2 = S := by
  unfold get_first_x_minutes_of_programs_return_unused
    get_first_x_minutes_of_programs
  exact firstXMinutesAux_partition (minutes * 60 * 1000) S 0 h

/-- C2 witness: a two-item nodup lineup is partitioned exactly. -/
theorem c2_extraction_partition_witness :
    ([sampleMovie, sampleEpA11] : List MediaItem).Nodup ∧
    (get_first_x_minutes_of_programs_return_unused [sampleMovie, sampleEpA11] 1).1 ++
      (get_first_x_minutes_of_programs_return_unused [sampleMovie, sampleEpA11] 1).2.2 =
      [sampleMovie, sampleEpA11] :=
  ⟨by decide, c2_extraction_partition [sampleMovie, sampleEpA11] 1 (by decide)⟩

/-- C2 counterexample: when the same item occurrence appears twice
(`[a, a]` with 40-second items and a one-minute budget), the selection takes
one occurrence but the remainder membership test drops both, so the claimed
partition of the input fails. -/
theorem c2_extraction_partition_counterexample :
    ¬((get_first_x_minutes_of_programs_return_unused [sampleMovie, sampleMovie] 1).1 ++
        (get_first_x_minutes_of_programs_return_unused [sampleMovie, sampleMovie] 1).2.2 ~
      [sampleMovie, sampleMovie]) := by
  decide

/-! Deduplication by rating key. -/

/-- Unfolding equation of the deduplication loop on a key-less head. -/
theorem removeDuplicatesByKeyAux_cons_none {it : MediaItem}
    (h : it.ratingKey = none) (rest : List MediaItem) (seen : List String) :
    removeDuplicatesByKeyAux (it :: rest) seen =
      it :: removeDuplicatesByKeyAux rest seen := by
  simp [removeDuplicatesByKeyAux, h]

/-- Unfolding equation of the deduplication loop on a head with a key. -/
theorem removeDuplicatesByKeyAux_cons_some {it : MediaItem} {k : String}
    (h : it.ratingKey = some k) (rest : List MediaItem) (seen : List String) :
    removeDuplicatesByKeyAux (it :: rest) seen =
      if k = "" then it :: removeDuplicatesByKeyAux rest seen
      else if k ∈ seen then removeDuplicatesByKeyAux rest seen
      else it :: removeDuplicatesByKeyAux rest (seen ++ [k]) := by
  simp only [removeDuplicatesByKeyAux, h]

/-- The deduplication loop returns a subsequence of its input. -/
theorem removeDuplicatesByKeyAux_sublist :
    ∀ (l : List MediaItem) (seen : List String),
      removeDuplicatesByKeyAux l seen <+ l := by
  intro l
  induction l with
  | nil => intro seen; simp [removeDuplicatesByKeyAux]
  | cons it rest ih =>
    intro seen
    cases hk : it.ratingKey with
    | none => simpa [removeDuplicatesByKeyAux, hk] using (ih seen).cons₂ it
    | some k =>
      by_cases h1 : k = ""
      · simpa [removeDuplicatesByKeyAux, hk, h1] using (ih seen).cons₂ it
      · by_cases h2 : k ∈ seen
        · simpa [removeDuplicatesByKeyAux, hk, h1, h2] using (ih seen).cons it
        · simpa [removeDuplicatesByKeyAux, hk, h1, h2] using
            (ih (seen ++ [k])).cons₂ it

/-- Every truthy rating key appearing in the output of the deduplication loop
was not
in the already-seen accumulator. -/
theorem removeDuplicatesByKeyAux_key_not_seen :
    ∀ (l : List MediaItem) (seen : List String),
      ∀ x ∈ removeDuplicatesByKeyAux l seen,
        ∀ k, x.ratingKey = some k → k ≠ "" → k ∉ seen := by
  intro l
  induction l with
  | nil => intro seen x hx; simp [removeDuplicatesByKeyAux] at hx
  | cons it rest ih =>
    intro seen x hx k hk hke
    cases hit : it.ratingKey with
    | none =>
      rw [removeDuplicatesByKeyAux_cons_none hit] at hx
      rcases List.mem_cons.mp hx with hx | hx
      · rw [hx] at hk; rw [hit] at hk; cases hk
      · exact ih seen x hx k hk hke
    | some k0 =>
      rw [removeDuplicatesByKeyAux_cons_some hit] at hx
      by_cases h1 : k0 = ""
      · rw [if_pos h1] at hx
        rcases List.mem_cons.mp hx with hx | hx
        · rw [hx, hit, h1] at hk
          cases hk
          exact absurd rfl hke
        · exact ih seen x hx k hk hke
      · rw [if_neg h1] at hx
        by_cases h2 : k0 ∈ seen
        · rw [if_pos h2] at hx
          exact ih seen x hx k hk hke
        · rw [if_neg h2] at hx
          rcases List.mem_cons.mp hx with hx | hx
          · rw [hx, hit] at hk
            cases hk
            exact h2
          · have := ih (seen ++ [k0]) x hx k hk hke
            intro hmem
            exact this (List.mem_append_left _ hmem)

/-- No two items in the output of the deduplication loop share a truthy
rating key. -/
theorem removeDuplicatesByKeyAux_pairwise :
    ∀ (l : List MediaItem) (seen : List String),
      (removeDuplicatesByKeyAux l seen).Pairwise
        (fun a b => ∀ k, a.ratingKey = some k → k ≠ "" → b.ratingKey ≠ some k) := by
  intro l
  induction l with
  | nil => intro seen; simp [removeDuplicatesByKeyAux]
  | cons it rest ih =>
    intro seen
    cases hit : it.ratingKey with
    | none =>
      rw [removeDuplicatesByKeyAux_cons_none hit]
      refine List.Pairwise.cons ?_ (ih seen)
      intro b _ k hk
      rw [hit] at hk
      cases hk
    | some k0 =>
      rw [removeDuplicatesByKeyAux_cons_some hit]
      by_cases h1 : k0 = ""
      · rw [if_pos h1]
        refine List.Pairwise.cons ?_ (ih seen)
        intro b _ k hk hke
        rw [hit, h1] at hk
        cases hk
        exact absurd rfl hke
      · rw [if_neg h1]
        by_cases h2 : k0 ∈ seen
        · rw [if_pos h2]
          exact ih seen
        · rw [if_neg h2]
          refine List.Pairwise.cons ?_ (ih (seen ++ [k0]))
          intro b hb k hk hke hbk
          rw [hit] at hk
          cases hk
          have := removeDuplicatesByKeyAux_key_not_seen rest (seen ++ [k0])
            b hb k0 hbk hke
          exact this (List.mem_append_right _ (List.mem_singleton.mpr rfl))

/-- Items with a falsy rating key (`None` or `""`) are always kept by the
deduplication loop. -/
theorem removeDuplicatesByKeyAux_keeps_falsy :
    ∀ (l : List MediaItem) (seen : List String), ∀ x ∈ l,
      (x.ratingKey = none ∨ x.ratingKey = some "") →
        x ∈ removeDuplicatesByKeyAux l seen := by
  intro l
  induction l with
  | nil => intro seen x hx; cases hx
  | cons it rest ih =>
    intro seen x hx hfalsy
    rcases List.mem_cons.mp hx with hx | hx
    · subst hx
      rcases hfalsy with hf | hf
      · rw [removeDuplicatesByKeyAux_cons_none hf]
        exact List.mem_cons_self _ _
      · rw [removeDuplicatesByKeyAux_cons_some hf, if_pos rfl]
        exact List.mem_cons_self _ _
    · cases hit : it.ratingKey with
      | none =>
        rw [removeDuplicatesByKeyAux_cons_none hit]
        exact List.mem_cons_of_mem _ (ih seen x hx hfalsy)
      | some k0 =>
        rw [removeDuplicatesByKeyAux_cons_some hit]
        by_cases h1 : k0 = ""
        · rw [if_pos h1]
          exact List.mem_cons_of_mem _ (ih seen x hx hfalsy)
        · rw [if_neg h1]
          by_cases h2 : k0 ∈ seen
          · rw [if_pos h2]
            exact ih seen x hx hfalsy
          · rw [if_neg h2]
            exact List.mem_cons_of_mem _ (ih (seen ++ [k0]) x hx hfalsy)

/-- The first item of the deduplicated output carrying a given truthy,
not-yet-seen key is the first item of the input carrying that key. -/
theorem removeDuplicatesByKeyAux_find :
    ∀ (l : List MediaItem) (seen : List String) (k : String), k ≠ "" →
      k ∉ seen →
      (removeDuplicatesByKeyAux l seen).find? (fun it => it.ratingKey == some k) =
        l.find? (fun it => it.ratingKey == some k) := by
  intro l
  induction l with
  | nil => intro seen k _ _; simp [removeDuplicatesByKeyAux]
  | cons it rest ih =>
    intro seen k hke hseen
    cases hit : it.ratingKey with
    | none =>
      have hpit : (it.ratingKey == some k) = false := by simp [hit]
      rw [removeDuplicatesByKeyAux_cons_none hit,
        List.find?_cons_of_neg _ (by simp [hpit]),
        List.find?_cons_of_neg _ (by simp [hpit])]
      exact ih seen k hke hseen
    | some k0 =>
      rw [removeDuplicatesByKeyAux_cons_some hit]
      by_cases h1 : k0 = ""
      · have hpit : (it.ratingKey == some k) = false := by
          simp [hit, h1]
          intro h
          exact absurd h.symm hke
        rw [if_pos h1, List.find?_cons_of_neg _ (by simp [hpit]),
          List.find?_cons_of_neg _ (by simp [hpit])]
        exact ih seen k hke hseen
      · by_cases heq : k0 = k
        · subst heq
          by_cases h2 : k0 ∈ seen
          · exact absurd h2 hseen
          · have hpit : (it.ratingKey == some k0) = true := by simp [hit]
            rw [if_neg h1, if_neg h2, List.find?_cons_of_pos _ (by simp [hpit]),
              List.find?_cons_of_pos _ (by simp [hpit])]
        · have hpit : (it.ratingKey == some k) = false := by
            simp [hit]
            exact heq
          by_cases h2 : k0 ∈ seen
          · rw [if_neg h1, if_pos h2, List.find?_cons_of_neg _ (by simp [hpit])]
            exact ih seen k hke hseen
          · rw [if_neg h1, if_neg h2, List.find?_cons_of_neg _ (by simp [hpit]),
              List.find?_cons_of_neg _ (by simp [hpit])]
            refine ih (seen ++ [k0]) k hke ?_
            intro hmem
            rcases List.mem_append.mp hmem with h | h
            · exact hseen h
            · exact heq (List.mem_singleton.mp h).symm

/-- C5: on lineups whose items all carry a `type` attribute (the data model
requires a kind for every item), `remove_duplicate_media_items` contains no
redirect, no two of its items share a truthy `ratingKey`, it is a
subsequence of the input (preserving first-occurrence order), it keeps every
non-redirect item with a falsy key, and for each truthy key it keeps exactly
the first non-redirect occurrence of that key. -/
theorem c5_remove_duplicates (S : List MediaItem)
    (htype : ∀ it ∈ S, it.type.isSome) :
    (∀ it ∈ remove_duplicate_media_items S, it.type ≠ some "redirect") ∧
    (remove_duplicate_media_items S).Pairwise
      (fun a b => ∀ k, a.ratingKey = some k → k ≠ "" → b.ratingKey ≠ some k) ∧
    remove_duplicate_media_items S <+ S ∧
    (∀ it ∈ S, it.type ≠ some "redirect" →
      (it.ratingKey = none ∨ it.ratingKey = some "") →
        it ∈ remove_duplicate_media_items S) ∧
    (∀ k : String, k ≠ "" →
      (remove_duplicate_media_items S).find? (fun it => it.ratingKey == some k) =
        (remove_non_programs S).find? (fun it => it.ratingKey == some k)) := by
  have hsub1 : remove_duplicate_media_items S <+ remove_non_programs S :=
    removeDuplicatesByKeyAux_sublist (remove_non_programs S) []
  have hsub2 : remove_non_programs S <+ S := List.filter_sublist S
  refine ⟨?_, ?_, hsub1.trans hsub2, ?_, ?_⟩
  · intro it hit
    have hmem := hsub1.mem hit
    have hpred := (List.mem_filter.mp hmem).2
    intro hred
    rw [hred] at hpred
    simp at hpred
  · exact removeDuplicatesByKeyAux_pairwise (remove_non_programs S) []
  · intro it hit hred hfalsy
    have hpred : (it.type.isSome && !(it.type == some "redirect")) = true := by
      have h1 := htype it hit
      cases hty : it.type with
      | none => rw [hty] at h1; cases h1
      | some t =>
        have : ¬ t = "redirect" := by
          intro h
          exact hred (by rw [hty, h])
        simp [hty, this]
    exact removeDuplicatesByKeyAux_keeps_falsy (remove_non_programs S) [] it
      (List.mem_filter.mpr ⟨hit, hpred⟩) hfalsy
  · intro k hke
    exact removeDuplicatesByKeyAux_find (remove_non_programs S) [] k hke
      (List.not_mem_nil k)

/-- C5 witness: concrete instantiation on a three-item lineup with a
duplicated key. -/
theorem c5_remove_duplicates_witness :
    (∀ it ∈ [sampleMovie, sampleMovie, sampleEpA11], it.type.isSome) ∧
    remove_duplicate_media_items [sampleMovie, sampleMovie, sampleEpA11] <+
      [sampleMovie, sampleMovie, sampleEpA11] :=
  ⟨by decide,
    (c5_remove_duplicates [sampleMovie, sampleMovie, sampleEpA11]
      (by decide)).2.2.1⟩

/-! Offline-pad stripping keeps redirects. -/

/-- C10: the offline-strip filter used before re-padding removes exactly the
non-redirect items flagged `isOffline`; every redirect item — in particular
every night-block redirect, which carries `isOffline = True` — survives. -/
theorem c10_offline_strip_preserves_redirects (S : List MediaItem) :
    (∀ it ∈ S, it.type = some "redirect" →
      it ∈ delete_all_offline_times_filter S) ∧
    (∀ it ∈ S, it ∉ delete_all_offline_times_filter S →
      it.isOffline = some true ∧ it.type ≠ some "redirect") ∧
    (∀ it ∈ delete_all_offline_times_filter S,
      truthyBool it.isOffline = true → it.type = some "redirect") ∧
    (∀ n len, mkNightRedirect n len ∈ S →
      mkNightRedirect n len ∈ delete_all_offline_times_filter S) := by
  have hkeep : ∀ it ∈ S, it.type = some "redirect" →
      it ∈ delete_all_offline_times_filter S := by
    intro it hit hred
    refine List.mem_filter.mpr ⟨hit, ?_⟩
    simp [hred]
  refine ⟨hkeep, ?_, ?_, ?_⟩
  · intro it hit hnot
    have hpred : ¬((!truthyBool it.isOffline || it.type == some "redirect") = true) := by
      intro h
      exact hnot (List.mem_filter.mpr ⟨hit, h⟩)
    simp only [Bool.or_eq_true, Bool.not_eq_true', beq_iff_eq] at hpred
    push_neg at hpred
    constructor
    · cases hoff : it.isOffline with
      | none => rw [hoff] at hpred; simp [truthyBool] at hpred
      | some b =>
        cases b with
        | false => rw [hoff] at hpred; simp [truthyBool] at hpred
        | true => rfl
    · exact hpred.2
  · intro it hit hoff
    have hpred := (List.mem_filter.mp hit).2
    simp only [Bool.or_eq_true, Bool.not_eq_true', beq_iff_eq] at hpred
    rcases hpred with h | h
    · rw [hoff] at h; cases h
    · exact h
  · intro n len hmem
    exact hkeep _ hmem rfl

/-- C10 witness: a lineup of a movie, a plain offline pad and a night
redirect keeps the redirect and drops only the pad. -/
theorem c10_offline_strip_preserves_redirects_witness :
    mkNightRedirect 4 1000 ∈
      ([sampleMovie, mkOfflinePad 500, mkNightRedirect 4 1000] : List MediaItem) ∧
    mkNightRedirect 4 1000 ∈
      delete_all_offline_times_filter
        [sampleMovie, mkOfflinePad 500, mkNightRedirect 4 1000] :=
  ⟨by decide,
    (c10_offline_strip_preserves_redirects
      [sampleMovie, mkOfflinePad 500, mkNightRedirect 4 1000]).2.2.2 4 1000
      (by decide)⟩

/-! Night-block validation. -/

/-- C8: an invalid night-block request (equal hours, an hour outside
`[0, 23]`, or a non-existent target channel) makes both night-block variants
raise a configuration error before any sequence is built, leaving the
channel lineup and start time unchanged. -/
theorem c8_night_block_validation (st : ChannelState)
    (channel_numbers : List Nat) (n : Nat) (s e : Int) (new_start : String)
    (t : Int)
    (h : s = e ∨ s < 0 ∨ s > 23 ∨ e < 0 ∨ e > 23 ∨ n ∉ channel_numbers) :
    addChannelAtNightError channel_numbers n s e ≠ none ∧
    runAddChannelAtNight st channel_numbers n s e new_start = st ∧
    addChannelAtNightAltError channel_numbers n s e ≠ none ∧
    runAddChannelAtNightAlt st channel_numbers n s e t = st := by
  have herr : addChannelAtNightError channel_numbers n s e ≠ none := by
    unfold addChannelAtNightError
    split
    · simp
    · split
      · simp
      · split
        · simp
        · split
          · simp
          · rename_i h1 h2 h3 h4
            exfalso
            rcases h with h | h | h | h | h | h
            · exact h3 h
            · exact h1 (Or.inr h)
            · exact h1 (Or.inl h)
            · exact h2 (Or.inr h)
            · exact h2 (Or.inl h)
            · exact h4 h
  have herralt : addChannelAtNightAltError channel_numbers n s e ≠ none := by
    unfold addChannelAtNightAltError
    split
    · simp
    · split
      · simp
      · split
        · simp
        · split
          · simp
          · rename_i h1 h2 h3 h4
            exfalso
            rcases h with h | h | h | h | h | h
            · refine h4 ?_
              rw [h]
              simp [get_milliseconds_between_two_hours]
            · exact h1 (Or.inr h)
            · exact h1 (Or.inl h)
            · exact h2 (Or.inr h)
            · exact h2 (Or.inl h)
            · exact h3 h
  refine ⟨herr, ?_, herralt, ?_⟩
  · unfold runAddChannelAtNight
    cases herrv : addChannelAtNightError channel_numbers n s e with
    | none => exact absurd herrv herr
    | some msg => rfl
  · unfold runAddChannelAtNightAlt
    cases herrv : addChannelAtNightAltError channel_numbers n s e with
    | none => exact absurd herrv herralt
    | some msg => rfl

/-! Night-block loop: cycle structure, termination and divergence. -/

/-- The greedy selection is a subsequence of the scanned programs. -/
theorem firstXMinutesAux_sublist (ms : Int) :
    ∀ (S : List MediaItem) (running : Nat),
      (firstXMinutesAux ms S running).1 <+ S := by
  intro S
  induction S with
  | nil => intro running; simp [firstXMinutesAux]
  | cons p rest ih =>
    intro running
    rw [firstXMinutesAux_cons]
    by_cases hfit : ((running + p.duration : Nat) : Int) ≤ ms
    · rw [if_pos hfit]
      exact (ih (running + p.duration)).cons₂ p
    · rw [if_neg hfit]
      exact List.nil_sublist _

/-- Removing one present element that fails the filter predicate makes the
filtered list strictly shorter. -/
theorem length_filter_lt_of_mem_not (p : MediaItem → Bool)
    (l : List MediaItem) (a : MediaItem) (ha : a ∈ l) (hpa : p a = false) :
    (l.filter p).length < l.length := by
  induction l with
  | nil => cases ha
  | cons b t ih =>
    rcases List.mem_cons.mp ha with h | h
    · subst h
      rw [List.filter_cons_of_neg (by simp [hpa])]
      exact Nat.lt_succ_of_le (List.length_filter_le p t)
    · by_cases hb : p b = true
      · rw [List.filter_cons_of_pos hb]
        simpa using ih h
      · rw [List.filter_cons_of_neg (by simpa using hb)]
        exact Nat.lt_succ_of_lt (ih h)

/-- When every program fits the budget on its own, one extraction step
strictly shrinks the leftover list. -/
theorem extraction_leftover_shrinks (programs : List MediaItem) (minutes : Int)
    (hne : programs ≠ [])
    (hfit : ∀ p ∈ programs, (p.duration : Int) ≤ minutes * 60 * 1000) :
    (get_first_x_minutes_of_programs_return_unused programs minutes).2.2.length <
      programs.length := by
  cases programs with
  | nil => exact absurd rfl hne
  | cons p rest =>
    have hfitp : ((0 + p.duration : Nat) : Int) ≤ minutes * 60 * 1000 := by
      have := hfit p (List.mem_cons_self p rest)
      simpa using this
    have hhead :
        (get_first_x_minutes_of_programs_return_unused (p :: rest) minutes).1 =
          p :: (firstXMinutesAux (minutes * 60 * 1000) rest (0 + p.duration)).1 := by
      unfold get_first_x_minutes_of_programs_return_unused
        get_first_x_minutes_of_programs
      rw [firstXMinutesAux_cons, if_pos hfitp]
    have hcontains :
        ((get_first_x_minutes_of_programs_return_unused (p :: rest) minutes).1.contains p) =
          true := by
      rw [hhead]
      simp [List.contains_cons]
    have h222 :
        (get_first_x_minutes_of_programs_return_unused (p :: rest) minutes).2.2 =
          (p :: rest).filter (fun q =>
            !((get_first_x_minutes_of_programs_return_unused
              (p :: rest) minutes).1.contains q)) := rfl
    rw [h222]
    exact length_filter_lt_of_mem_not _ _ p (List.mem_cons_self p rest)
      (by rw [hcontains]; rfl)

/-- Unfolding equation for the night-block loop on a nonempty program list. -/
theorem addChannelAtNightLoop_cons (ch night day : Nat) (minutes : Int)
    (fuel : Nat) (p : MediaItem) (rest : List MediaItem) :
    addChannelAtNightLoop ch night day minutes (fuel + 1) (p :: rest) =
      match addChannelAtNightLoop ch night day minutes fuel
          (get_first_x_minutes_of_programs_return_unused (p :: rest) minutes).2.2 with
      | none => none
      | some cycles =>
        some (nightCycle ch night day minutes (p :: rest) :: cycles) := by
  rfl

/-- C9 amended: the day/night interleaving loop terminates — fuel equal to
the lineup length suffices — provided every program individually fits the
day-block extraction budget. -/
theorem c9_night_loop_termination (ch night day : Nat) (minutes : Int)
    (programs : List MediaItem)
    (hfit : ∀ p ∈ programs, (p.duration : Int) ≤ minutes * 60 * 1000) :
    ∃ cycles,
      addChannelAtNightLoop ch night day minutes programs.length programs =
        some cycles := by
  suffices h : ∀ (fuel : Nat) (l : List MediaItem),
      l.length ≤ fuel →
      (∀ p ∈ l, (p.duration : Int) ≤ minutes * 60 * 1000) →
      ∃ cycles, addChannelAtNightLoop ch night day minutes fuel l = some cycles by
    exact h programs.length programs (Nat.le_refl _) hfit
  intro fuel
  induction fuel with
  | zero =>
    intro l hl _
    have : l = [] := List.length_eq_zero.mp (Nat.le_zero.mp hl)
    subst this
    exact ⟨[], rfl⟩
  | succ f ih =>
    intro l hl hfitl
    cases l with
    | nil => exact ⟨[], rfl⟩
    | cons p rest =>
      have hshrink := extraction_leftover_shrinks (p :: rest) minutes
        (by simp) hfitl
      have hleft :
          (get_first_x_minutes_of_programs_return_unused (p :: rest) minutes).2.2.length ≤ f := by
        have := hl
        simp only [List.length_cons] at this
        omega
      have hfitleft : ∀ q ∈
          (get_first_x_minutes_of_programs_return_unused (p :: rest) minutes).2.2,
          (q.duration : Int) ≤ minutes * 60 * 1000 := by
        intro q hq
        have : q ∈ p :: rest := by
          have hsub : (get_first_x_minutes_of_programs_return_unused
              (p :: rest) minutes).2.2 <+ p :: rest := List.filter_sublist _
          exact hsub.mem hq
        exact hfitl q this
      obtain ⟨cys, hcys⟩ := ih _ hleft hfitleft
      refine ⟨nightCycle ch night day minutes (p :: rest) :: cys, ?_⟩
      rw [addChannelAtNightLoop_cons, hcys]

/-- C9 witness: two half-day movies are interleaved in two cycles. -/
theorem c9_night_loop_termination_witness :
    (∀ p ∈ ([sampleMovie, sampleEpA11] : List MediaItem),
      (p.duration : Int) ≤ 720 * 60 * 1000) ∧
    ∃ cycles,
      addChannelAtNightLoop 5 43200000 43200000 720 2 [sampleMovie, sampleEpA11] =
        some cycles :=
  ⟨by decide,
    c9_night_loop_termination 5 43200000 43200000 720 [sampleMovie, sampleEpA11]
      (by decide)⟩

/-- With `bigProgram` at the head of the leftover list, every amount of fuel
is exhausted: the extraction selects nothing and returns the whole list as
leftover, so the loop never makes progress. -/
theorem addChannelAtNightLoop_bigProgram_stuck :
    ∀ fuel, addChannelAtNightLoop 5 43200000 43200000 720 fuel [bigProgram] =
      none := by
  intro fuel
  induction fuel with
  | zero => rfl
  | succ f ih =>
    have hstep :
        (get_first_x_minutes_of_programs_return_unused [bigProgram] 720).2.2 =
          [bigProgram] := by decide
    rw [addChannelAtNightLoop_cons, hstep, ih]

/-- C9 counterexample: for a lineup holding one program longer than the day
block (here 43,200,001 ms against a 43,200,000 ms day block, hours 0 to 12),
the loop of `add_channel_at_night` never consumes the leftover list: no
amount of fuel makes it return. -/
theorem c9_night_loop_termination_counterexample :
    ¬ ∃ fuel cycles,
      addChannelAtNightLoop 5 43200000 43200000 720 fuel [bigProgram] =
        some cycles := by
  rintro ⟨fuel, cycles, h⟩
  rw [addChannelAtNightLoop_bigProgram_stuck fuel] at h
  cases h

/-- Every cycle produced by the night-block loop on a redirect-free lineup
holds exactly the appended night redirect as its redirect content. -/
theorem addChannelAtNightLoop_cycles_redirects (ch night day : Nat)
    (minutes : Int) :
    ∀ (fuel : Nat) (programs : List MediaItem)
      (_ : ∀ p ∈ programs, p.type ≠ some "redirect")
      (cycles : List (List MediaItem)),
      addChannelAtNightLoop ch night day minutes fuel programs = some cycles →
      ∀ c ∈ cycles,
        c.filter (fun it => it.type == some "redirect") =
          [mkNightRedirect ch night] := by
  intro fuel
  induction fuel with
  | zero =>
    intro programs hnored cycles hloop c hc
    cases programs with
    | nil =>
      have : cycles = [] := by
        have : some ([] : List (List MediaItem)) = some cycles := hloop
        exact (Option.some.injEq _ _).mp this |>.symm
      subst this
      cases hc
    | cons p rest => cases hloop
  | succ f ih =>
    intro programs hnored cycles hloop c hc
    cases programs with
    | nil =>
      have : cycles = [] := by
        have : some ([] : List (List MediaItem)) = some cycles := hloop
        exact (Option.some.injEq _ _).mp this |>.symm
      subst this
      cases hc
    | cons p rest =>
      rw [addChannelAtNightLoop_cons] at hloop
      cases hrec : addChannelAtNightLoop ch night day minutes f
          (get_first_x_minutes_of_programs_return_unused (p :: rest) minutes).2.2 with
      | none => rw [hrec] at hloop; cases hloop
      | some cys =>
        rw [hrec] at hloop
        have hcyc : cycles = nightCycle ch night day minutes (p :: rest) :: cys :=
          ((Option.some.injEq _ _).mp hloop).symm
        subst hcyc
        rcases List.mem_cons.mp hc with hc | hc
        · subst hc
          unfold nightCycle
          have hsel : (get_first_x_minutes_of_programs_return_unused
              (p :: rest) minutes).1 <+ p :: rest := by
            unfold get_first_x_minutes_of_programs_return_unused
              get_first_x_minutes_of_programs
            exact firstXMinutesAux_sublist _ _ _
          have hselred : ∀ q ∈ (get_first_x_minutes_of_programs_return_unused
              (p :: rest) minutes).1,
              (q.type == some "redirect") = false := by
            intro q hq
            have := hnored q (hsel.mem hq)
            simp [this]
          have hfilsel : (get_first_x_minutes_of_programs_return_unused
              (p :: rest) minutes).1.filter
                (fun it => it.type == some "redirect") = [] :=
            List.filter_eq_nil_iff.mpr (by
              intro q hq
              simp [hselred q hq])
          rw [List.filter_append]
          split
          · rw [List.filter_append, hfilsel]
            simp [mkOfflinePad, mkNightRedirect]
          · rw [hfilsel]
            simp [mkNightRedirect]
        · have hnoredleft : ∀ q ∈ (get_first_x_minutes_of_programs_return_unused
              (p :: rest) minutes).2.2, q.type ≠ some "redirect" := by
            intro q hq
            exact hnored q ((List.filter_sublist _).mem hq)
          exact ih _ hnoredleft cys hrec c hc

/-- C3 amended: for valid distinct hours the night and day block lengths are
positive and sum to 24 hours, and — provided the existing lineup holds no
redirect items — every produced day/night cycle holds exactly one redirect,
whose duration is the night-block length and whose target is the requested
night channel. -/
theorem c3_night_block_structure (s e : Int) (h0s : 0 ≤ s) (hs : s ≤ 23)
    (h0e : 0 ≤ e) (he : e ≤ 23) (hne : s ≠ e) (ch : Nat)
    (programs : List MediaItem)
    (hnored : ∀ p ∈ programs, p.type ≠ some "redirect") (fuel : Nat)
    (cycles : List (List MediaItem)) :
    (get_milliseconds_between_two_hours s e).toNat +
        (24 * 60 * 60 * 1000 - (get_milliseconds_between_two_hours s e).toNat) =
      24 * 60 * 60 * 1000 ∧
    0 < (get_milliseconds_between_two_hours s e).toNat ∧
    (get_milliseconds_between_two_hours s e).toNat < 24 * 60 * 60 * 1000 ∧
    (addChannelAtNightLoop ch (get_milliseconds_between_two_hours s e).toNat
        (24 * 60 * 60 * 1000 - (get_milliseconds_between_two_hours s e).toNat)
        (((24 * 60 * 60 * 1000 -
            (get_milliseconds_between_two_hours s e).toNat : Nat) : Int) / 1000 / 60)
        fuel programs = some cycles →
      ∀ c ∈ cycles,
        c.filter (fun it => it.type == some "redirect") =
          [mkNightRedirect ch (get_milliseconds_between_two_hours s e).toNat] ∧
        (c.filter (fun it => it.type == some "redirect")).map MediaItem.duration =
          [(get_milliseconds_between_two_hours s e).toNat] ∧
        (c.filter (fun it => it.type == some "redirect")).map MediaItem.channel =
          [some ch]) := by
  have hbounds : 0 < (get_milliseconds_between_two_hours s e).toNat ∧
      (get_milliseconds_between_two_hours s e).toNat < 24 * 60 * 60 * 1000 := by
    unfold get_milliseconds_between_two_hours
    split <;> omega
  refine ⟨by omega, hbounds.1, hbounds.2, ?_⟩
  intro hloop c hc
  have hfil := addChannelAtNightLoop_cycles_redirects ch
    (get_milliseconds_between_two_hours s e).toNat
    (24 * 60 * 60 * 1000 - (get_milliseconds_between_two_hours s e).toNat)
    _ fuel programs hnored cycles hloop c hc
  refine ⟨hfil, ?_, ?_⟩
  · rw [hfil]; rfl
  · rw [hfil]; rfl

/-- C3 witness: hours 0 to 12 on a two-movie redirect-free lineup. -/
theorem c3_night_block_structure_witness :
    ((0 : Int) ≤ 0 ∧ (0 : Int) ≤ 23 ∧ (0 : Int) ≤ 12 ∧ (12 : Int) ≤ 23 ∧
      (0 : Int) ≠ 12 ∧
      (∀ p ∈ ([sampleMovie] : List MediaItem), p.type ≠ some "redirect")) ∧
    (get_milliseconds_between_two_hours 0 12).toNat +
        (24 * 60 * 60 * 1000 - (get_milliseconds_between_two_hours 0 12).toNat) =
      24 * 60 * 60 * 1000 :=
  ⟨⟨by decide, by decide, by decide, by decide, by decide, by decide⟩,
    (c3_night_block_structure 0 12 (by decide) (by decide) (by decide)
      (by decide) (by decide) 5 [sampleMovie] (by decide) 1 []).1⟩

/-- C3 counterexample: when the existing lineup already holds a redirect
item, a produced cycle holds two redirects, not exactly one (hours 0 to 12,
so day and night blocks are both 43,200,000 ms; the redirect in the lineup
is carried into the day selection of the first cycle). -/
theorem c3_night_block_structure_counterexample :
    addChannelAtNightLoop 5 43200000 43200000 720 1 [mkNightRedirect 9 1000] =
      some [[mkNightRedirect 9 1000, mkOfflinePad 43199000,
        mkNightRedirect 5 43200000]] ∧
    ([mkNightRedirect 9 1000, mkOfflinePad 43199000,
        mkNightRedirect 5 43200000].filter
      (fun it => it.type == some "redirect")).length ≠ 1 := by
  constructor
  · decide
  · decide

/-! Association-list dictionary lemmas. -/

/-- Updating a fresh key appends the new binding at the end of the dict. -/
theorem updD_not_mem {κ ν : Type} [DecidableEq κ] (k : κ) (f : Option ν → ν) :
    ∀ (d : List (κ × ν)), k ∉ d.map Prod.fst → updD k f d = d ++ [(k, f none)] := by
  intro d
  induction d with
  | nil => intro _; rfl
  | cons p t ih =>
    intro h
    obtain ⟨a, b⟩ := p
    simp only [List.map_cons, List.mem_cons] at h
    push_neg at h
    unfold updD
    rw [if_neg (fun he => h.1 he.symm)]
    rw [ih h.2]
    simp

/-- Updating a present key rewrites it in place: the dict decomposes around
the first binding of that key. -/
theorem updD_mem_decomp {κ ν : Type} [DecidableEq κ] (k : κ) (f : Option ν → ν) :
    ∀ (d : List (κ × ν)), k ∈ d.map Prod.fst →
      ∃ A v B, d = A ++ (k, v) :: B ∧ k ∉ A.map Prod.fst ∧
        updD k f d = A ++ (k, f (some v)) :: B := by
  intro d
  induction d with
  | nil => intro h; cases h
  | cons p t ih =>
    intro h
    obtain ⟨a, b⟩ := p
    by_cases hak : a = k
    · subst hak
      refine ⟨[], b, t, rfl, by simp, ?_⟩
      unfold updD
      rw [if_pos rfl]
      rfl
    · have hk : k ∈ t.map Prod.fst := by
        simp only [List.map_cons, List.mem_cons] at h
        rcases h with h | h
        · exact absurd h.symm hak
        · exact h
      obtain ⟨A, v, B, hd, hA, hupd⟩ := ih hk
      refine ⟨(a, b) :: A, v, B, by rw [hd]; rfl, ?_, ?_⟩
      · simp only [List.map_cons, List.mem_cons]
        push_neg
        exact ⟨fun he => hak he.symm, hA⟩
      · unfold updD
        rw [if_neg hak, hupd]
        rfl

/-- Entries added by an episode-level update on a fresh episode key. -/
theorem seasonEntries_updD_fresh (t : Option String) (s : Option Nat)
    (it : MediaItem) (ed : EpisodeDict) (h : it.episode ∉ ed.map Prod.fst) :
    seasonEntries t s (updD it.episode (fun _ => it) ed) =
      seasonEntries t s ed ++ [((t, s, it.episode), it)] := by
  rw [updD_not_mem _ _ ed h]
  simp [seasonEntries]

/-- Inserting an episode at a fresh (season, episode) position below show
`t` adds exactly its entry, up to permutation. -/
theorem showEntries_insert (t : Option String) (sd : SeasonDict)
    (it : MediaItem)
    (h : (t, it.season, it.episode) ∉ (showEntries t sd).map Prod.fst) :
    showEntries t (insertSeasonEp sd it) ~
      ((t, it.season, it.episode), it) :: showEntries t sd := by
  by_cases hs : it.season ∈ sd.map Prod.fst
  · obtain ⟨A, ed, B, hdecomp, hA, hupd⟩ :=
      updD_mem_decomp it.season
        (fun ed? => updD it.episode (fun _ => it) (ed?.getD [])) sd hs
    unfold insertSeasonEp
    rw [hupd]
    have hep : it.episode ∉ ed.map Prod.fst := by
      intro hmem
      apply h
      rw [hdecomp]
      have hmem2 : ((t, it.season, it.episode) : Option String × Option Nat × Option Nat) ∈
          (seasonEntries t it.season ed).map Prod.fst := by
        simp only [seasonEntries, List.map_map]
        obtain ⟨r, hr, hre⟩ := List.mem_map.mp hmem
        exact List.mem_map.mpr ⟨r, hr, by simp [Function.comp, hre]⟩
      simp only [showEntries, List.map_flatMap]
      refine List.mem_flatMap.mpr ⟨(it.season, ed), ?_, ?_⟩
      · simp
      · simpa [seasonEntries, List.map_map] using hmem2
    have hexp1 : showEntries t (A ++ (it.season,
        updD it.episode (fun _ => it) ((some ed).getD [])) :: B) =
          showEntries t A ++
            seasonEntries t it.season (updD it.episode (fun _ => it) ed) ++
            showEntries t B := by
      simp [showEntries, List.flatMap_append]
    have hexp2 : showEntries t (A ++ (it.season, ed) :: B) =
        showEntries t A ++ seasonEntries t it.season ed ++ showEntries t B := by
      simp [showEntries, List.flatMap_append]
    rw [hexp1, seasonEntries_updD_fresh t it.season it ed hep, hdecomp, hexp2]
    calc showEntries t A ++
          (seasonEntries t it.season ed ++ [((t, it.season, it.episode), it)]) ++
          showEntries t B
        = (showEntries t A ++ seasonEntries t it.season ed) ++
            ((t, it.season, it.episode), it) :: showEntries t B := by
          simp [List.append_assoc]
      _ ~ ((t, it.season, it.episode), it) ::
            ((showEntries t A ++ seasonEntries t it.season ed) ++
              showEntries t B) := List.perm_middle
      _ = ((t, it.season, it.episode), it) ::
            (showEntries t A ++ seasonEntries t it.season ed ++
              showEntries t B) := by simp [List.append_assoc]
  · unfold insertSeasonEp
    rw [updD_not_mem _ _ sd hs]
    have hexp : showEntries t (sd ++ [(it.season,
        updD it.episode (fun _ => it) ((none : Option EpisodeDict).getD []))]) =
          showEntries t sd ++ [((t, it.season, it.episode), it)] := by
      simp [showEntries, List.flatMap_append, seasonEntries, updD]
    rw [hexp]
    exact List.perm_append_singleton _ _

/-- Inserting an episode at a fresh (show, season, episode) position adds
exactly its entry, up to permutation. -/
theorem dictEntries_insert (d : ShowDict) (it : MediaItem)
    (h : key3 it ∉ (dictEntries d).map Prod.fst) :
    dictEntries (insertEpisode d it) ~ (key3 it, it) :: dictEntries d := by
  by_cases ht : it.showTitle ∈ d.map Prod.fst
  · obtain ⟨A, sd, B, hdecomp, hA, hupd⟩ :=
      updD_mem_decomp it.showTitle
        (fun sd? => insertSeasonEp (sd?.getD []) it) d ht
    unfold insertEpisode
    rw [hupd]
    have hfresh2 : (it.showTitle, it.season, it.episode) ∉
        (showEntries it.showTitle sd).map Prod.fst := by
      intro hmem
      apply h
      rw [hdecomp]
      simp only [dictEntries, List.map_flatMap]
      refine List.mem_flatMap.mpr ⟨(it.showTitle, sd), by simp, ?_⟩
      simpa [key3] using hmem
    have hperm := showEntries_insert it.showTitle sd it hfresh2
    have hexp1 : dictEntries (A ++ (it.showTitle,
        insertSeasonEp ((some sd).getD []) it) :: B) =
          dictEntries A ++ showEntries it.showTitle (insertSeasonEp sd it) ++
            dictEntries B := by
      simp [dictEntries, List.flatMap_append]
    have hexp2 : dictEntries (A ++ (it.showTitle, sd) :: B) =
        dictEntries A ++ showEntries it.showTitle sd ++ dictEntries B := by
      simp [dictEntries, List.flatMap_append]
    rw [hexp1, hdecomp, hexp2]
    calc dictEntries A ++ showEntries it.showTitle (insertSeasonEp sd it) ++
          dictEntries B
        = dictEntries A ++ (showEntries it.showTitle (insertSeasonEp sd it) ++
            dictEntries B) := by simp [List.append_assoc]
      _ ~ dictEntries A ++
            ((((it.showTitle, it.season, it.episode), it) ::
              showEntries it.showTitle sd) ++ dictEntries B) :=
          List.Perm.append_left (dictEntries A)
            (hperm.append_right (dictEntries B))
      _ = dictEntries A ++
            ((it.showTitle, it.season, it.episode), it) ::
              (showEntries it.showTitle sd ++ dictEntries B) := by simp
      _ ~ ((it.showTitle, it.season, it.episode), it) ::
            (dictEntries A ++ (showEntries it.showTitle sd ++ dictEntries B)) :=
          List.perm_middle
      _ = (key3 it, it) ::
            (dictEntries A ++ showEntries it.showTitle sd ++ dictEntries B) := by
          simp [key3, List.append_assoc]
  · unfold insertEpisode
    rw [updD_not_mem _ _ d ht]
    have hexp : dictEntries (d ++ [(it.showTitle,
        insertSeasonEp ((none : Option SeasonDict).getD []) it)]) =
          dictEntries d ++ [(key3 it, it)] := by
      simp [dictEntries, List.flatMap_append, showEntries, seasonEntries,
        insertSeasonEp, updD, key3]
    rw [hexp]
    exact List.perm_append_singleton _ _

/-! Permutation facts for the ordering strategies. -/

/-- Setting position `s` to `x` and consing the displaced element permutes a
cons of `x`. -/
theorem cons_set_perm :
    ∀ (t : List MediaItem) (s : Nat) (b x : MediaItem), t.get? s = some b →
      b :: t.set s x ~ x :: t := by
  intro t
  induction t with
  | nil => intro s b x h; cases h
  | cons y ys ih =>
    intro s b x h
    cases s with
    | zero =>
      have hb : b = y := by
        simp [List.get?] at h
        exact h.symm
      subst hb
      simp only [List.set_cons_zero]
      exact List.Perm.swap x b ys
    | succ s =>
      have h' : ys.get? s = some b := h
      simp only [List.set_cons_succ]
      calc b :: y :: ys.set s x
          ~ y :: b :: ys.set s x := List.Perm.swap y b _
        _ ~ y :: x :: ys := (ih s b x h').cons y
        _ ~ x :: y :: ys := List.Perm.swap x y ys

/-- A double `set` realising a Python tuple swap is a permutation. -/
theorem set_set_swap_perm :
    ∀ (l : List MediaItem) (i j : Nat) (a b : MediaItem),
      l.get? i = some a → l.get? j = some b → (l.set i b).set j a ~ l := by
  intro l
  induction l with
  | nil => intro i j a b hi _; cases hi
  | cons x t ih =>
    intro i j a b hi hj
    cases i with
    | zero =>
      have ha : a = x := by
        simp [List.get?] at hi
        exact hi.symm
      subst ha
      cases j with
      | zero =>
        have hb : b = a := by
          simp [List.get?] at hj
          exact hj.symm
        subst hb
        simp
      | succ s =>
        have hj' : t.get? s = some b := hj
        simp only [List.set_cons_zero, List.set_cons_succ]
        exact cons_set_perm t s b a hj'
    | succ s =>
      cases j with
      | zero =>
        have hb : b = x := by
          simp [List.get?] at hj
          exact hj.symm
        subst hb
        have hi' : t.get? s = some a := hi
        simp only [List.set_cons_succ, List.set_cons_zero]
        exact cons_set_perm t s a b hi'
      | succ u =>
        have hi' : t.get? s = some a := hi
        have hj' : t.get? u = some b := hj
        simp only [List.set_cons_succ]
        exact (ih s u a b hi' hj').cons x

/-- One Python element swap is a permutation. -/
theorem swapAt2_perm (l : List MediaItem) (i j : Nat) : swapAt2 l i j ~ l := by
  unfold swapAt2
  cases hi : l.get? i with
  | none => exact List.Perm.refl l
  | some a =>
    cases hj : l.get? j with
    | none => exact List.Perm.refl l
    | some b => exact set_set_swap_perm l i j a b hi hj

/-- The Fisher–Yates loop is a permutation, whatever the oracle draws. -/
theorem fisherYatesAux_perm (oracle : Nat → Nat) :
    ∀ (i : Nat) (l : List MediaItem), fisherYatesAux oracle i l ~ l := by
  intro i
  induction i with
  | zero => intro l; exact List.Perm.refl l
  | succ n ih =>
    intro l
    exact (ih _).trans (swapAt2_perm l (n + 1) (oracle (n + 1) % (n + 2)))

/-- `random.shuffle` is a permutation. -/
theorem shuffleList_perm (oracle : Nat → Nat) (l : List MediaItem) :
    shuffleList oracle l ~ l :=
  fisherYatesAux_perm oracle (l.length - 1) l

/-- `rotate_items` is a permutation. -/
theorem rotate_items_perm (l : List MediaItem) (s : Nat) :
    rotate_items l s ~ l :=
  List.rotate_perm l _

/-- Stable insertion is a permutation of the cons. -/
theorem orderedInsertB_perm {α : Type} (le : α → α → Bool) (a : α) :
    ∀ (l : List α), orderedInsertB le a l ~ a :: l := by
  intro l
  induction l with
  | nil => exact List.Perm.refl _
  | cons b t ih =>
    unfold orderedInsertB
    split
    · exact List.Perm.refl _
    · calc b :: orderedInsertB le a t
          ~ b :: a :: t := ih.cons b
        _ ~ a :: b :: t := List.Perm.swap a b t

/-- Stable insertion sort is a permutation. -/
theorem insertionSortB_perm {α : Type} (le : α → α → Bool) :
    ∀ (l : List α), insertionSortB le l ~ l := by
  intro l
  induction l with
  | nil => exact List.Perm.refl _
  | cons a t ih =>
    calc insertionSortB le (a :: t)
        = orderedInsertB le a (insertionSortB le t) := rfl
      _ ~ a :: insertionSortB le t := orderedInsertB_perm le a _
      _ ~ a :: t := ih.cons a

/-- C1 part: the alphabetical strategy is a permutation of its input. -/
theorem sort_media_alphabetically_perm (media_items : List MediaItem) :
    sort_media_alphabetically media_items ~ media_items := by
  unfold sort_media_alphabetically
  calc insertionSortB (fun a b => leOptStr (alphaKey a) (alphaKey b))
        (media_items.filter (fun it => it.title.isSome)) ++
          media_items.filter (fun it => !it.title.isSome)
      ~ media_items.filter (fun it => it.title.isSome) ++
          media_items.filter (fun it => !it.title.isSome) :=
        (insertionSortB_perm _ _).append_right _
    _ ~ media_items := List.filter_append_perm _ _

/-- C1 part: the release-date strategy, when it succeeds (all dates parse),
is a permutation of its input. -/
theorem sort_media_by_release_date_perm (media_items out : List MediaItem)
    (h : sort_media_by_release_date media_items = some out) :
    out ~ media_items := by
  unfold sort_media_by_release_date at h
  split at h
  · have hout := (Option.some.injEq _ _).mp h
    subst hout
    calc insertionSortB _ (media_items.filter (fun it => it.date.isSome)) ++
          sort_media_alphabetically
            (media_items.filter (fun it => !it.date.isSome))
        ~ media_items.filter (fun it => it.date.isSome) ++
            media_items.filter (fun it => !it.date.isSome) :=
          (insertionSortB_perm _ _).append
            (sort_media_alphabetically_perm _)
      _ ~ media_items := List.filter_append_perm _ _
  · cases h

/-- C1 part: the by-duration strategy returns a sub-multiset (here: a
subpermutation) of its input. -/
theorem sort_media_by_duration_subperm (media_items : List MediaItem) :
    sort_media_by_duration media_items <+~ media_items := by
  unfold sort_media_by_duration
  exact ⟨media_items.filter _, (insertionSortB_perm _ _).symm,
    List.filter_sublist _⟩

/-- On well-formed items the two pools complement each other. -/
theorem nonShow_eq_not_showEp {it : MediaItem} (h : wfItem it) :
    nonShowPred it = !showEpPred it := by
  obtain ⟨h1, h2⟩ := h
  cases hty : it.type with
  | none => rw [hty] at h1; cases h1
  | some t =>
    by_cases ht : t = "episode"
    · subst ht
      obtain ⟨he, hs, _, _⟩ := h2 hty
      have hs0 : (it.season == some 0) = false := by
        cases hsn : it.season with
        | none => rfl
        | some n =>
          have : ¬ n = 0 := fun h0 => hs (by rw [hsn, h0])
          simp [this]
      simp [nonShowPred, showEpPred, hty, he, hs0]
    · have hbe : (t == "episode") = false := by simp [ht]
      simp [nonShowPred, showEpPred, hty, hbe]

/-- The grouped episodes and the non-shows partition a well-formed input. -/
theorem partition_perm (S : List MediaItem) (h : ∀ it ∈ S, wfItem it) :
    S.filter showEpPred ++ get_non_shows S ~ S := by
  have hg : get_non_shows S = S.filter (fun it => !showEpPred it) := by
    unfold get_non_shows
    apply List.filter_congr
    intro it hit
    exact nonShow_eq_not_showEp (h it hit)
  rw [hg]
  exact List.filter_append_perm _ _

/-- Folding the grouped insertions over items with globally fresh
(show, season, episode) triples accumulates exactly one entry per grouped
item. -/
theorem dictEntries_foldl :
    ∀ (S : List MediaItem) (d : ShowDict),
      ((dictEntries d).map Prod.fst ++ (S.filter showEpPred).map key3).Nodup →
      dictEntries (S.foldl
          (fun d it => if showEpPred it then insertEpisode d it else d) d) ~
        dictEntries d ++ (S.filter showEpPred).map (fun it => (key3 it, it)) := by
  intro S
  induction S with
  | nil => intro d _; simp
  | cons x S ih =>
    intro d h
    by_cases hx : showEpPred x = true
    · rw [List.filter_cons_of_pos hx, List.map_cons] at h
      have hperm0 : (dictEntries d).map Prod.fst ++
          key3 x :: (S.filter showEpPred).map key3 ~
            key3 x :: ((dictEntries d).map Prod.fst ++
              (S.filter showEpPred).map key3) := List.perm_middle
      have hnodup2 := hperm0.nodup_iff.mp h
      have hfresh : key3 x ∉ (dictEntries d).map Prod.fst := by
        intro hmem
        exact (List.nodup_cons.mp hnodup2).1 (List.mem_append_left _ hmem)
      have hstep := dictEntries_insert d x hfresh
      have htr : (dictEntries (insertEpisode d x)).map Prod.fst ~
          key3 x :: (dictEntries d).map Prod.fst := by
        simpa using hstep.map Prod.fst
      have hnodup3 : ((dictEntries (insertEpisode d x)).map Prod.fst ++
          (S.filter showEpPred).map key3).Nodup := by
        have hp : (dictEntries (insertEpisode d x)).map Prod.fst ++
            (S.filter showEpPred).map key3 ~
              key3 x :: ((dictEntries d).map Prod.fst ++
                (S.filter showEpPred).map key3) := by
          calc (dictEntries (insertEpisode d x)).map Prod.fst ++
                (S.filter showEpPred).map key3
              ~ (key3 x :: (dictEntries d).map Prod.fst) ++
                  (S.filter showEpPred).map key3 :=
                htr.append_right _
            _ = key3 x :: ((dictEntries d).map Prod.fst ++
                  (S.filter showEpPred).map key3) := rfl
        exact hp.nodup_iff.mpr hnodup2
      have hrec := ih (insertEpisode d x) hnodup3
      have hfold : (x :: S).foldl
          (fun d it => if showEpPred it then insertEpisode d it else d) d =
            S.foldl
              (fun d it => if showEpPred it then insertEpisode d it else d)
              (insertEpisode d x) := by
        simp [hx]
      rw [hfold, List.filter_cons_of_pos hx, List.map_cons]
      calc dictEntries (S.foldl
            (fun d it => if showEpPred it then insertEpisode d it else d)
            (insertEpisode d x))
          ~ dictEntries (insertEpisode d x) ++
              (S.filter showEpPred).map (fun it => (key3 it, it)) := hrec
        _ ~ ((key3 x, x) :: dictEntries d) ++
              (S.filter showEpPred).map (fun it => (key3 it, it)) :=
            hstep.append_right _
        _ = (key3 x, x) :: (dictEntries d ++
              (S.filter showEpPred).map (fun it => (key3 it, it))) := rfl
        _ ~ dictEntries d ++ (key3 x, x) ::
              (S.filter showEpPred).map (fun it => (key3 it, it)) :=
            List.perm_middle.symm
    · have hxf : showEpPred x = false := by
        cases hb : showEpPred x
        · rfl
        · exact absurd hb hx
      rw [List.filter_cons_of_neg (by simp [hxf])] at h
      have hfold : (x :: S).foldl
          (fun d it => if showEpPred it then insertEpisode d it else d) d =
            S.foldl
              (fun d it => if showEpPred it then insertEpisode d it else d) d := by
        simp [hxf]
      rw [hfold, List.filter_cons_of_neg (by simp [hxf])]
      exact ih d h

/-- The entries of `make_show_dict` on a duplicate-free input are exactly
the grouped items keyed by their triple, up to permutation. -/
theorem dictEntries_make_show_dict (S : List MediaItem)
    (h : ((S.filter showEpPred).map key3).Nodup) :
    dictEntries (make_show_dict S) ~
      (S.filter showEpPred).map (fun it => (key3 it, it)) := by
  have hd : dictEntries ([] : ShowDict) = [] := rfl
  have := dictEntries_foldl S [] (by rw [hd]; simpa using h)
  rw [hd] at this
  simpa [make_show_dict] using this

/-- Dictionary flattening reads the entry items. -/
theorem flattenShowDict_eq (d : ShowDict) :
    flattenShowDict d = (dictEntries d).map Prod.snd := by
  simp [flattenShowDict, dictEntries, showEntries, seasonEntries,
    flattenSeasonDict, List.map_flatMap, List.map_map, Function.comp_def]

/-- Flattening `make_show_dict` of a duplicate-free input permutes the
grouped items. -/
theorem flattenShowDict_make_show_dict (S : List MediaItem)
    (h : ((S.filter showEpPred).map key3).Nodup) :
    flattenShowDict (make_show_dict S) ~ S.filter showEpPred := by
  rw [flattenShowDict_eq]
  have := (dictEntries_make_show_dict S h).map Prod.snd
  simpa [List.map_map, Function.comp_def] using this

/-- Sorting an association list by key is a permutation. -/
theorem sortByKey_perm {κ ν : Type} (le : κ → κ → Bool) (d : List (κ × ν)) :
    sortByKey le d ~ d :=
  insertionSortB_perm _ d

/-- Per-show-season sorting keeps the dictionary entries, up to
permutation. -/
theorem dictEntries_order_show_dict (d : ShowDict) :
    dictEntries (order_show_dict d) ~ dictEntries d := by
  unfold order_show_dict dictEntries
  rw [List.flatMap_map]
  refine List.Perm.flatMap_left d ?_
  intro p _
  calc showEntries p.1
        (sortByKey leOptNat (p.2.map (fun q => (q.1, sortByKey leOptNat q.2))))
      ~ showEntries p.1 (p.2.map (fun q => (q.1, sortByKey leOptNat q.2))) :=
        List.Perm.flatMap_right _ (sortByKey_perm _ _)
    _ = p.2.flatMap (fun q => seasonEntries p.1 q.1 (sortByKey leOptNat q.2)) := by
        simp [showEntries, List.flatMap_map]
    _ ~ p.2.flatMap (fun q => seasonEntries p.1 q.1 q.2) :=
        List.Perm.flatMap_left _ (fun q _ =>
          (sortByKey_perm _ _).map _)

/-- Season-ordering keeps the flattened items, up to permutation. -/
theorem flattenShowDict_order_show_dict (d : ShowDict) :
    flattenShowDict (order_show_dict d) ~ flattenShowDict d := by
  rw [flattenShowDict_eq, flattenShowDict_eq]
  exact (dictEntries_order_show_dict d).map Prod.snd

/-- The three-level sorted flattening permutes the stored items. -/
theorem sort_shows_by_season_order_perm (d : ShowDict) :
    sort_shows_by_season_order d ~ flattenShowDict d := by
  unfold sort_shows_by_season_order flattenShowDict
  calc (sortByKey leOptStr d).flatMap (fun p =>
        (sortByKey leOptNat p.2).flatMap (fun q =>
          (sortByKey leOptNat q.2).map Prod.snd))
      ~ d.flatMap (fun p =>
          (sortByKey leOptNat p.2).flatMap (fun q =>
            (sortByKey leOptNat q.2).map Prod.snd)) :=
        List.Perm.flatMap_right _ (sortByKey_perm _ _)
    _ ~ d.flatMap (fun p => flattenSeasonDict p.2) := by
        refine List.Perm.flatMap_left d ?_
        intro p _
        calc (sortByKey leOptNat p.2).flatMap (fun q =>
              (sortByKey leOptNat q.2).map Prod.snd)
            ~ p.2.flatMap (fun q => (sortByKey leOptNat q.2).map Prod.snd) :=
              List.Perm.flatMap_right _ (sortByKey_perm _ _)
          _ ~ p.2.flatMap (fun q => q.2.map Prod.snd) :=
              List.Perm.flatMap_left _ (fun q _ =>
                (sortByKey_perm _ _).map _)
          _ = flattenSeasonDict p.2 := rfl

/-- C1 part: the season-order strategy is a permutation of a well-formed,
duplicate-free input. -/
theorem sort_media_by_season_order_perm (S : List MediaItem)
    (hwf : ∀ it ∈ S, wfItem it)
    (hnodup : ((S.filter showEpPred).map key3).Nodup) :
    sort_media_by_season_order S ~ S := by
  unfold sort_media_by_season_order
  calc sort_shows_by_season_order (make_show_dict S) ++
        sort_media_alphabetically (get_non_shows S)
      ~ flattenShowDict (make_show_dict S) ++ get_non_shows S :=
        (sort_shows_by_season_order_perm _).append
          (sort_media_alphabetically_perm _)
    _ ~ S.filter showEpPred ++ get_non_shows S :=
        (flattenShowDict_make_show_dict S hnodup).append_right _
    _ ~ S := partition_perm S hwf

/-! List surgery helpers for the queue-consuming loops. -/

/-- A list decomposes around any position read with `get?`. -/
theorem get?_decomp {α : Type} {l : List α} {j : Nat} {q : α}
    (h : l.get? j = some q) : l = l.take j ++ q :: l.drop (j + 1) := by
  have hj : j < l.length := by
    rw [List.get?_eq_getElem?] at h
    exact (List.getElem?_eq_some_iff.mp h).1
  have he : l[j] = q := by
    rw [List.get?_eq_getElem?] at h
    exact (List.getElem?_eq_some_iff.mp h).2
  calc l = l.take j ++ l.drop j := (List.take_append_drop j l).symm
    _ = l.take j ++ q :: l.drop (j + 1) := by
        rw [List.drop_eq_getElem_cons hj, he]

/-- Setting a present position decomposes the same way. -/
theorem set_decomp {α : Type} {l : List α} {j : Nat} {q : α}
    (h : l.get? j = some q) (v : α) :
    l.set j v = l.take j ++ v :: l.drop (j + 1) := by
  have hj : j < l.length := by
    rw [List.get?_eq_getElem?] at h
    exact (List.getElem?_eq_some_iff.mp h).1
  rw [List.set_eq_take_append_cons_drop, if_pos hj]

/-- Consing an element in front of two concatenated blocks permutes placing
it between them. -/
theorem middle_cons_perm {α : Type} (A B C : List α) (x : α) :
    x :: (A ++ (B ++ C)) ~ A ++ ((x :: B) ++ C) :=
  List.perm_middle.symm

/-- Moving a front block past another block is a permutation. -/
theorem front_block_perm {α : Type} (A B C : List α) :
    A ++ (B ++ C) ~ B ++ (A ++ C) := by
  calc A ++ (B ++ C) = (A ++ B) ++ C := (List.append_assoc A B C).symm
    _ ~ (B ++ A) ++ C := List.perm_append_comm.append_right C
    _ = B ++ (A ++ C) := List.append_assoc B A C

/-- Popping the head of queue `j` is a flatten-level permutation. -/
theorem flatten_set_step {α : Type} {queues : List (List α)} {j : Nat}
    {x : α} {qrest : List α} (h : queues.get? j = some (x :: qrest)) :
    x :: (queues.set j qrest).flatten ~ queues.flatten := by
  rw [set_decomp h qrest]
  conv_rhs => rw [get?_decomp h]
  rw [List.flatten_append, List.flatten_cons, List.flatten_append,
    List.flatten_cons]
  exact middle_cons_perm _ _ _ x

/-- Emitting queue `j` whole and erasing it is a flatten-level permutation. -/
theorem flatten_erase_front {α : Type} {queues : List (List α)} {j : Nat}
    {q : List α} (h : queues.get? j = some q) :
    q ++ (queues.eraseIdx j).flatten ~ queues.flatten := by
  rw [List.eraseIdx_eq_take_drop_succ]
  conv_rhs => rw [get?_decomp h]
  rw [List.flatten_append, List.flatten_append, List.flatten_cons]
  exact front_block_perm _ _ _

/-- Emitting a block from the front of queue `j` is a flatten-level
permutation. -/
theorem flatten_take_front {α : Type} {queues : List (List α)} {j : Nat}
    {q : List α} (h : queues.get? j = some q) (k : Nat) :
    q.take k ++ (queues.set j (q.drop k)).flatten ~ queues.flatten := by
  rw [set_decomp h]
  conv_rhs => rw [get?_decomp h]
  rw [List.flatten_append, List.flatten_cons, List.flatten_append,
    List.flatten_cons]
  calc q.take k ++ ((queues.take j).flatten ++
        (q.drop k ++ (queues.drop (j + 1)).flatten))
      ~ (queues.take j).flatten ++ (q.take k ++
          (q.drop k ++ (queues.drop (j + 1)).flatten)) :=
        front_block_perm _ _ _
    _ = (queues.take j).flatten ++ ((q.take k ++ q.drop k) ++
          (queues.drop (j + 1)).flatten) := by rw [List.append_assoc]
    _ = (queues.take j).flatten ++ (q ++ (queues.drop (j + 1)).flatten) := by
        rw [List.take_append_drop]

/-- Membership survives erasing a position. -/
theorem mem_of_mem_eraseIdx {α : Type} {l : List α} {j : Nat} {x : α}
    (h : x ∈ l.eraseIdx j) : x ∈ l := by
  rw [List.eraseIdx_eq_take_drop_succ] at h
  rcases List.mem_append.mp h with h | h
  · exact (List.take_sublist _ _).mem h
  · exact (List.drop_sublist _ _).mem h

/-- A member of a `set` is the written value or an original member. -/
theorem mem_of_mem_set {α : Type} {l : List α} {j : Nat} {v x : α}
    (h : x ∈ l.set j v) : x = v ∨ x ∈ l := by
  by_cases hj : j < l.length
  · rw [List.set_eq_take_append_cons_drop, if_pos hj] at h
    rcases List.mem_append.mp h with h | h
    · exact Or.inr ((List.take_sublist _ _).mem h)
    · rcases List.mem_cons.mp h with h | h
      · exact Or.inl h
      · exact Or.inr ((List.drop_sublist _ _).mem h)
  · rw [List.set_eq_of_length_le (Nat.le_of_not_lt hj)] at h
    exact Or.inr h

/-- Unfolding equation of the cyclical emission loop. -/
theorem cyclicalLoop_succ (catO : Nat → Bool) (showO : Nat → Nat) (f : Nat)
    (queues : List (List MediaItem)) (nonShows : List MediaItem) :
    cyclicalLoop catO showO (f + 1) queues nonShows =
      if queues.isEmpty ∧ nonShows.isEmpty then []
      else
        if cyclicalPickShow catO f queues nonShows then
          match queues.get? (showO f % queues.length) with
          | none => []
          | some [] => []
          | some (x :: qrest) =>
            x :: cyclicalLoop catO showO f
              (if qrest.isEmpty then queues.eraseIdx (showO f % queues.length)
                else queues.set (showO f % queues.length) qrest)
              nonShows
        else
          match nonShows with
          | [] => []
          | x :: nrest => x :: cyclicalLoop catO showO f queues nrest := by
  rfl

/-- The cyclical emission loop permutes both pools, for every oracle, when
the queues are non-empty and the fuel is the total item count. -/
theorem cyclicalLoop_perm (catO : Nat → Bool) (showO : Nat → Nat) :
    ∀ (fuel : Nat) (queues : List (List MediaItem)) (nonShows : List MediaItem),
      (∀ q ∈ queues, q ≠ []) →
      fuel = queues.flatten.length + nonShows.length →
      cyclicalLoop catO showO fuel queues nonShows ~
        queues.flatten ++ nonShows := by
  intro fuel
  induction fuel with
  | zero =>
    intro queues nonShows _ hf
    have h1 : queues.flatten = [] := List.length_eq_zero.mp (by omega)
    have h2 : nonShows = [] := List.length_eq_zero.mp (by omega)
    rw [h1, h2]
    exact List.Perm.refl _
  | succ f ih =>
    intro queues nonShows hne hf
    rw [cyclicalLoop_succ]
    by_cases hboth : queues.isEmpty = true ∧ nonShows.isEmpty = true
    · exfalso
      rw [List.isEmpty_iff.mp hboth.1, List.isEmpty_iff.mp hboth.2] at hf
      simp at hf
    · rw [if_neg hboth]
      by_cases hpick : cyclicalPickShow catO f queues nonShows = true
      · rw [if_pos hpick]
        have hqne : queues ≠ [] := by
          intro hq
          subst hq
          unfold cyclicalPickShow at hpick
          by_cases hns : nonShows.isEmpty = true
          · exact hboth ⟨rfl, hns⟩
          · rw [if_neg (by simp [hns])] at hpick
            simp at hpick
        have hlen : 0 < queues.length := List.length_pos.mpr hqne
        have hj : showO f % queues.length < queues.length := Nat.mod_lt _ hlen
        cases hget : queues.get? (showO f % queues.length) with
        | none =>
          exfalso
          have := List.get?_eq_none.mp hget
          omega
        | some q =>
          have hqmem : q ∈ queues := List.get?_mem hget
          obtain ⟨x, qrest, rfl⟩ := List.exists_cons_of_ne_nil (hne q hqmem)
          dsimp only
          by_cases hqr : qrest.isEmpty = true
          · rw [if_pos hqr]
            have hqrnil : qrest = [] := List.isEmpty_iff.mp hqr
            subst hqrnil
            have hstep :
                [x] ++ (queues.eraseIdx (showO f % queues.length)).flatten ~
                  queues.flatten := flatten_erase_front hget
            have hne' : ∀ r ∈ queues.eraseIdx (showO f % queues.length),
                r ≠ [] := fun r hr => hne r (mem_of_mem_eraseIdx hr)
            have hflen :
                (queues.eraseIdx (showO f % queues.length)).flatten.length + 1 =
                  queues.flatten.length := by
              have h1 := hstep.length_eq
              rw [List.length_append] at h1
              simp only [List.length_singleton] at h1
              omega
            have hrec := ih _ nonShows hne' (by omega)
            calc x :: cyclicalLoop catO showO f
                  (queues.eraseIdx (showO f % queues.length)) nonShows
                ~ x :: ((queues.eraseIdx (showO f % queues.length)).flatten ++
                    nonShows) := hrec.cons x
              _ = ([x] ++ (queues.eraseIdx (showO f % queues.length)).flatten) ++
                    nonShows := rfl
              _ ~ queues.flatten ++ nonShows := hstep.append_right nonShows
          · rw [if_neg hqr]
            have hstep :
                x :: (queues.set (showO f % queues.length) qrest).flatten ~
                  queues.flatten := flatten_set_step hget
            have hne' : ∀ r ∈ queues.set (showO f % queues.length) qrest,
                r ≠ [] := by
              intro r hr
              rcases mem_of_mem_set hr with h | h
              · subst h
                intro hcon
                rw [hcon] at hqr
                exact hqr rfl
              · exact hne r h
            have hflen :
                (queues.set (showO f % queues.length) qrest).flatten.length + 1 =
                  queues.flatten.length := by
              have h1 := hstep.length_eq
              rw [List.length_cons] at h1
              omega
            have hrec := ih _ nonShows hne' (by omega)
            calc x :: cyclicalLoop catO showO f
                  (queues.set (showO f % queues.length) qrest) nonShows
                ~ x :: ((queues.set (showO f % queues.length) qrest).flatten ++
                    nonShows) := hrec.cons x
              _ = (x :: (queues.set (showO f % queues.length) qrest).flatten) ++
                    nonShows := rfl
              _ ~ queues.flatten ++ nonShows := hstep.append_right nonShows
      · rw [if_neg hpick]
        have hnsne : nonShows ≠ [] := by
          intro h
          subst h
          unfold cyclicalPickShow at hpick
          simp at hpick
        obtain ⟨x, nrest, rfl⟩ := List.exists_cons_of_ne_nil hnsne
        have hfuel : f = queues.flatten.length + nrest.length := by
          rw [List.length_cons] at hf
          omega
        have hrec := ih queues nrest hne hfuel
        calc x :: cyclicalLoop catO showO f queues nrest
            ~ x :: (queues.flatten ++ nrest) := hrec.cons x
          _ ~ queues.flatten ++ x :: nrest := List.perm_middle.symm

/-! Non-emptiness of the grouped dictionaries. -/

/-- A dict update never returns an empty dict. -/
theorem updD_ne_nil {κ ν : Type} [DecidableEq κ] (k : κ) (f : Option ν → ν)
    (d : List (κ × ν)) : updD k f d ≠ [] := by
  cases d with
  | nil => simp [updD]
  | cons p t =>
    obtain ⟨a, b⟩ := p
    unfold updD
    split <;> simp

/-- A member of an updated dict is an original member, the fresh binding, or
the rewritten binding of an original value. -/
theorem mem_updD {κ ν : Type} [DecidableEq κ] {k : κ} {f : Option ν → ν} :
    ∀ {d : List (κ × ν)} {p : κ × ν}, p ∈ updD k f d →
      p ∈ d ∨ p = (k, f none) ∨ ∃ v, (k, v) ∈ d ∧ p = (k, f (some v)) := by
  intro d
  induction d with
  | nil =>
    intro p hp
    simp [updD] at hp
    exact Or.inr (Or.inl hp)
  | cons hd t ih =>
    intro p hp
    obtain ⟨a, b⟩ := hd
    unfold updD at hp
    by_cases hak : a = k
    · rw [if_pos hak] at hp
      subst hak
      rcases List.mem_cons.mp hp with hp | hp
      · exact Or.inr (Or.inr ⟨b, List.mem_cons_self _ _, hp⟩)
      · exact Or.inl (List.mem_cons_of_mem _ hp)
    · rw [if_neg hak] at hp
      rcases List.mem_cons.mp hp with hp | hp
      · exact Or.inl (by rw [hp]; exact List.mem_cons_self _ _)
      · rcases ih hp with hp | hp | ⟨v, hv, hpv⟩
        · exact Or.inl (List.mem_cons_of_mem _ hp)
        · exact Or.inr (Or.inl hp)
        · exact Or.inr (Or.inr ⟨v, List.mem_cons_of_mem _ hv, hpv⟩)

/-- Insertion preserves dictionary well-formedness. -/
theorem wfDict_insertEpisode {d : ShowDict} (hd : wfDict d) (it : MediaItem) :
    wfDict (insertEpisode d it) := by
  intro p hp
  unfold insertEpisode at hp
  rcases mem_updD hp with h | h | ⟨v, hv, hpv⟩
  · exact hd p h
  · subst h
    refine ⟨updD_ne_nil _ _ _, ?_⟩
    intro q hq
    rcases mem_updD hq with h | h | ⟨w, hw, hqw⟩
    · cases h
    · subst h
      exact updD_ne_nil _ _ _
    · cases hw
  · subst hpv
    obtain ⟨hv1, hv2⟩ := hd (it.showTitle, v) hv
    refine ⟨updD_ne_nil _ _ _, ?_⟩
    intro q hq
    rcases mem_updD hq with h | h | ⟨w, hw, hqw⟩
    · exact hv2 q h
    · subst h
      exact updD_ne_nil _ _ _
    · subst hqw
      exact updD_ne_nil _ _ _

/-- The grouping fold builds a well-formed dictionary. -/
theorem wfDict_make_show_dict (S : List MediaItem) :
    wfDict (make_show_dict S) := by
  suffices h : ∀ (l : List MediaItem) (d : ShowDict), wfDict d →
      wfDict (l.foldl
        (fun d it => if showEpPred it then insertEpisode d it else d) d) by
    exact h S [] (fun p hp => absurd hp (List.not_mem_nil p))
  intro l
  induction l with
  | nil => intro d hd; exact hd
  | cons x t ih =>
    intro d hd
    simp only [List.foldl_cons]
    by_cases hx : showEpPred x = true
    · rw [if_pos hx]
      exact ih _ (wfDict_insertEpisode hd x)
    · rw [if_neg hx]
      exact ih _ hd

/-- Ordering levels preserves dictionary well-formedness. -/
theorem wfDict_order_show_dict {d : ShowDict} (hd : wfDict d) :
    wfDict (order_show_dict d) := by
  intro p hp
  unfold order_show_dict at hp
  obtain ⟨p0, hp0, hpe⟩ := List.mem_map.mp hp
  obtain ⟨h1, h2⟩ := hd p0 hp0
  subst hpe
  constructor
  · intro hnil
    dsimp only at hnil
    have hlen := (sortByKey_perm leOptNat
      (p0.2.map (fun r => (r.1, sortByKey leOptNat r.2)))).length_eq
    rw [hnil] at hlen
    simp only [List.length_nil, List.length_map] at hlen
    exact h1 (List.length_eq_zero.mp hlen.symm)
  · intro q hq
    have hq2 : q ∈ p0.2.map (fun r => (r.1, sortByKey leOptNat r.2)) :=
      (sortByKey_perm _ _).mem_iff.mp hq
    obtain ⟨q0, hq0, hqe⟩ := List.mem_map.mp hq2
    subst hqe
    intro hnil
    dsimp only at hnil
    have hlen := (sortByKey_perm leOptNat q0.2).length_eq
    rw [hnil] at hlen
    simp only [List.length_nil] at hlen
    exact (h2 q0 hq0) (List.length_eq_zero.mp hlen.symm)

/-- A well-formed season dict flattens to a non-empty list. -/
theorem flattenSeasonDict_ne_nil {sd : SeasonDict} (h1 : sd ≠ [])
    (h2 : ∀ q ∈ sd, q.2 ≠ []) : flattenSeasonDict sd ≠ [] := by
  obtain ⟨q, rest, rfl⟩ := List.exists_cons_of_ne_nil h1
  unfold flattenSeasonDict
  simp only [List.flatMap_cons]
  intro hnil
  have hmap : q.2.map Prod.snd = [] := (List.append_eq_nil.mp hnil).1
  exact h2 q (List.mem_cons_self _ _) (List.map_eq_nil_iff.mp hmap)

/-- C1 part: the cyclical shuffle is a permutation of a well-formed,
duplicate-free input, for every random oracle. -/
theorem sort_media_cyclical_shuffle_perm (nsO rotO showO : Nat → Nat)
    (catO : Nat → Bool) (S : List MediaItem)
    (hwf : ∀ it ∈ S, wfItem it)
    (hnodup : ((S.filter showEpPred).map key3).Nodup) :
    sort_media_cyclical_shuffle nsO rotO showO catO S ~ S := by
  unfold sort_media_cyclical_shuffle
  have hflat :
      (((order_show_dict (make_show_dict S)).enum).map
        (fun p => rotate_items (flattenSeasonDict p.2.2) (rotO p.1))).flatten ~
        S.filter showEpPred := by
    calc (((order_show_dict (make_show_dict S)).enum).map
          (fun p => rotate_items (flattenSeasonDict p.2.2) (rotO p.1))).flatten
        = ((order_show_dict (make_show_dict S)).enum).flatMap
            (fun p => rotate_items (flattenSeasonDict p.2.2) (rotO p.1)) :=
          (List.flatMap_def _ _).symm
      _ ~ ((order_show_dict (make_show_dict S)).enum).flatMap
            (fun p => flattenSeasonDict p.2.2) :=
          List.Perm.flatMap_left _ (fun p _ => rotate_items_perm _ _)
      _ = (((order_show_dict (make_show_dict S)).enum).map Prod.snd).flatMap
            (fun q => flattenSeasonDict q.2) := by
          rw [List.flatMap_map]
      _ = (order_show_dict (make_show_dict S)).flatMap
            (fun q => flattenSeasonDict q.2) := by
          rw [List.enum_map_snd]
      _ = flattenShowDict (order_show_dict (make_show_dict S)) := rfl
      _ ~ flattenShowDict (make_show_dict S) :=
          flattenShowDict_order_show_dict _
      _ ~ S.filter showEpPred := flattenShowDict_make_show_dict S hnodup
  have hqne : ∀ q ∈ ((order_show_dict (make_show_dict S)).enum).map
      (fun p => rotate_items (flattenSeasonDict p.2.2) (rotO p.1)), q ≠ [] := by
    intro q hq
    obtain ⟨p, hp, hpe⟩ := List.mem_map.mp hq
    have hpd : p.2 ∈ order_show_dict (make_show_dict S) :=
      List.snd_mem_of_mem_enum hp
    obtain ⟨hw1, hw2⟩ :=
      wfDict_order_show_dict (wfDict_make_show_dict S) p.2 hpd
    have hfne := flattenSeasonDict_ne_nil hw1 hw2
    subst hpe
    intro hnil
    have hlen := congrArg List.length hnil
    simp only [rotate_items, List.length_rotate, List.length_nil] at hlen
    exact hfne (List.length_eq_zero.mp hlen)
  have hnslen : (shuffleList nsO (get_non_shows S)).length =
      (get_non_shows S).length := (shuffleList_perm _ _).length_eq
  have hpart := (partition_perm S hwf).length_eq
  rw [List.length_append] at hpart
  have hqlen : (((order_show_dict (make_show_dict S)).enum).map
      (fun p => rotate_items (flattenSeasonDict p.2.2) (rotO p.1))).flatten.length =
        (S.filter showEpPred).length := hflat.length_eq
  have hfuel : S.length =
      (((order_show_dict (make_show_dict S)).enum).map
        (fun p => rotate_items (flattenSeasonDict p.2.2) (rotO p.1))).flatten.length +
      (shuffleList nsO (get_non_shows S)).length := by omega
  calc cyclicalLoop catO showO S.length
        (((order_show_dict (make_show_dict S)).enum).map
          (fun p => rotate_items (flattenSeasonDict p.2.2) (rotO p.1)))
        (shuffleList nsO (get_non_shows S))
      ~ (((order_show_dict (make_show_dict S)).enum).map
          (fun p => rotate_items (flattenSeasonDict p.2.2) (rotO p.1))).flatten ++
          shuffleList nsO (get_non_shows S) :=
        cyclicalLoop_perm catO showO S.length _ _ hqne hfuel
    _ ~ S.filter showEpPred ++ get_non_shows S :=
        hflat.append (shuffleList_perm _ _)
    _ ~ S := partition_perm S hwf

/-! Block shuffle loops. -/

/-- Splitting every queue at `bl` and concatenating the fronts then the
backs permutes the whole. -/
theorem flatten_take_drop_perm {α : Type} (bl : Nat) :
    ∀ (L : List (List α)),
      (L.map (fun q => q.take bl)).flatten ++
        (L.map (fun q => q.drop bl)).flatten ~ L.flatten := by
  intro L
  induction L with
  | nil => simp
  | cons q t ih =>
    simp only [List.map_cons, List.flatten_cons]
    calc (q.take bl ++ (t.map (fun q => q.take bl)).flatten) ++
          (q.drop bl ++ (t.map (fun q => q.drop bl)).flatten)
        = q.take bl ++ ((t.map (fun q => q.take bl)).flatten ++
            (q.drop bl ++ (t.map (fun q => q.drop bl)).flatten)) :=
          List.append_assoc _ _ _
      _ ~ q.take bl ++ (q.drop bl ++ ((t.map (fun q => q.take bl)).flatten ++
            (t.map (fun q => q.drop bl)).flatten)) :=
          List.Perm.append_left _ (front_block_perm _ _ _)
      _ = (q.take bl ++ q.drop bl) ++ ((t.map (fun q => q.take bl)).flatten ++
            (t.map (fun q => q.drop bl)).flatten) :=
          (List.append_assoc _ _ _).symm
      _ ~ q ++ t.flatten := by
          rw [List.take_append_drop]
          exact List.Perm.append_left q ih

/-- Dropping `bl` from every queue never lengthens the flattening. -/
theorem flatten_map_drop_le {α : Type} (bl : Nat) :
    ∀ (L : List (List α)),
      (L.map (fun q => q.drop bl)).flatten.length ≤ L.flatten.length := by
  intro L
  induction L with
  | nil => simp
  | cons q t ih =>
    simp only [List.map_cons, List.flatten_cons, List.length_append]
    have h1 : (q.drop bl).length ≤ q.length := by
      rw [List.length_drop]
      omega
    omega

/-- With a positive block length and some non-empty queue, one round
strictly shrinks the flattening. -/
theorem flatten_drop_lt {α : Type} (bl : Nat) (hbl : 1 ≤ bl) :
    ∀ (L : List (List α)), ¬ L.all List.isEmpty = true →
      (L.map (fun q => q.drop bl)).flatten.length < L.flatten.length := by
  intro L
  induction L with
  | nil => intro h; exact absurd rfl h
  | cons q t ih =>
    intro h
    simp only [List.map_cons, List.flatten_cons, List.length_append]
    by_cases hq : q = []
    · subst hq
      have ht : ¬ t.all List.isEmpty = true := by
        intro hall
        exact h (by simp [hall])
      have := ih ht
      simpa using this
    · have hlt : (q.drop bl).length < q.length := by
        rw [List.length_drop]
        have : 0 < q.length := List.length_pos.mpr hq
        omega
      have hle := flatten_map_drop_le bl t
      omega

/-- Unfolding equation of the non-randomized block-shuffle loop. -/
theorem blockRoundLoop_succ (bl f : Nat) (queues : List (List MediaItem)) :
    blockRoundLoop bl (f + 1) queues =
      if queues.all List.isEmpty then []
      else
        (queues.map (fun q => q.take bl)).flatten ++
          blockRoundLoop bl f (queues.map (fun q => q.drop bl)) := by
  rfl

/-- The round-robin block loop permutes the queues, given a positive block
length and fuel covering the episode count. -/
theorem blockRoundLoop_perm (bl : Nat) (hbl : 1 ≤ bl) :
    ∀ (fuel : Nat) (queues : List (List MediaItem)),
      queues.flatten.length ≤ fuel →
      blockRoundLoop bl fuel queues ~ queues.flatten := by
  intro fuel
  induction fuel with
  | zero =>
    intro queues hf
    have h : queues.flatten = [] := List.length_eq_zero.mp (Nat.le_zero.mp hf)
    rw [h]
    exact List.Perm.refl _
  | succ f ih =>
    intro queues hf
    rw [blockRoundLoop_succ]
    by_cases hall : queues.all List.isEmpty = true
    · rw [if_pos hall]
      have h : queues.flatten = [] := by
        rw [List.flatten_eq_nil_iff]
        intro l hl
        exact List.isEmpty_iff.mp (List.all_eq_true.mp hall l hl)
      rw [h]
    · rw [if_neg hall]
      have hlt := flatten_drop_lt bl hbl queues hall
      have hrec := ih (queues.map (fun q => q.drop bl)) (by omega)
      calc (queues.map (fun q => q.take bl)).flatten ++
            blockRoundLoop bl f (queues.map (fun q => q.drop bl))
          ~ (queues.map (fun q => q.take bl)).flatten ++
              (queues.map (fun q => q.drop bl)).flatten :=
            List.Perm.append_left _ hrec
        _ ~ queues.flatten := flatten_take_drop_perm bl queues

/-- Unfolding equation of the randomized block-shuffle loop. -/
theorem blockRandomLoop_succ (bl : Nat) (showO sizeO : Nat → Nat) (f : Nat)
    (queues : List (List MediaItem)) :
    blockRandomLoop bl showO sizeO (f + 1) queues =
      if queues.all List.isEmpty then []
      else
        match queues.get? (showO f % queues.length) with
        | none => []
        | some q =>
          if q.length < 1 + sizeO f % bl then
            q ++ blockRandomLoop bl showO sizeO f
              (queues.eraseIdx (showO f % queues.length))
          else
            q.take (1 + sizeO f % bl) ++
              blockRandomLoop bl showO sizeO f
                (queues.set (showO f % queues.length)
                  (q.drop (1 + sizeO f % bl))) := by
  rfl

/-- The randomized block loop permutes the queues, for every oracle, with
fuel covering the episode count plus the show count. -/
theorem blockRandomLoop_perm (bl : Nat) (showO sizeO : Nat → Nat) :
    ∀ (fuel : Nat) (queues : List (List MediaItem)),
      queues.flatten.length + queues.length ≤ fuel →
      blockRandomLoop bl showO sizeO fuel queues ~ queues.flatten := by
  intro fuel
  induction fuel with
  | zero =>
    intro queues hf
    have hq : queues = [] := List.length_eq_zero.mp (by omega)
    subst hq
    exact List.Perm.refl _
  | succ f ih =>
    intro queues hf
    rw [blockRandomLoop_succ]
    by_cases hall : queues.all List.isEmpty = true
    · rw [if_pos hall]
      have h : queues.flatten = [] := by
        rw [List.flatten_eq_nil_iff]
        intro l hl
        exact List.isEmpty_iff.mp (List.all_eq_true.mp hall l hl)
      rw [h]
    · rw [if_neg hall]
      have hqne : queues ≠ [] := by
        intro h
        subst h
        exact hall rfl
      have hlen : 0 < queues.length := List.length_pos.mpr hqne
      have hj : showO f % queues.length < queues.length := Nat.mod_lt _ hlen
      cases hget : queues.get? (showO f % queues.length) with
      | none =>
        exfalso
        have := List.get?_eq_none.mp hget
        omega
      | some q =>
        dsimp only
        have herlen : (queues.eraseIdx (showO f % queues.length)).length + 1 =
            queues.length := by
          rw [List.eraseIdx_eq_take_drop_succ, List.length_append,
            List.length_take, List.length_drop]
          omega
        by_cases hk : q.length < 1 + sizeO f % bl
        · rw [if_pos hk]
          have hstep : q ++
              (queues.eraseIdx (showO f % queues.length)).flatten ~
                queues.flatten := flatten_erase_front hget
          have hflen := hstep.length_eq
          rw [List.length_append] at hflen
          have hrec := ih (queues.eraseIdx (showO f % queues.length))
            (by omega)
          calc q ++ blockRandomLoop bl showO sizeO f
                (queues.eraseIdx (showO f % queues.length))
              ~ q ++ (queues.eraseIdx (showO f % queues.length)).flatten :=
                List.Perm.append_left q hrec
            _ ~ queues.flatten := hstep
        · rw [if_neg hk]
          have hstep := flatten_take_front hget (1 + sizeO f % bl)
          have hflen := hstep.length_eq
          rw [List.length_append, List.length_take] at hflen
          have hsetlen : (queues.set (showO f % queues.length)
              (q.drop (1 + sizeO f % bl))).length = queues.length :=
            List.length_set _ _ _
          have hrec := ih (queues.set (showO f % queues.length)
              (q.drop (1 + sizeO f % bl))) (by omega)
          calc q.take (1 + sizeO f % bl) ++ blockRandomLoop bl showO sizeO f
                (queues.set (showO f % queues.length)
                  (q.drop (1 + sizeO f % bl)))
              ~ q.take (1 + sizeO f % bl) ++
                  (queues.set (showO f % queues.length)
                    (q.drop (1 + sizeO f % bl))).flatten :=
                List.Perm.append_left _ hrec
            _ ~ queues.flatten := hstep

/-- C1 part: both block-shuffle variants permute a well-formed,
duplicate-free input, for every oracle, when the block length is at least
one. -/
theorem sort_media_block_shuffle_perm (S : List MediaItem) (bl : Nat)
    (hbl : 1 ≤ bl) (randomize : Bool) (showO sizeO : Nat → Nat)
    (hwf : ∀ it ∈ S, wfItem it)
    (hnodup : ((S.filter showEpPred).map key3).Nodup) :
    sort_media_block_shuffle S bl randomize showO sizeO ~ S := by
  have hflat :
      ((order_show_dict (make_show_dict S)).map
        (fun p => flattenSeasonDict p.2)).flatten ~ S.filter showEpPred := by
    calc ((order_show_dict (make_show_dict S)).map
          (fun p => flattenSeasonDict p.2)).flatten
        = (order_show_dict (make_show_dict S)).flatMap
            (fun p => flattenSeasonDict p.2) := (List.flatMap_def _ _).symm
      _ = flattenShowDict (order_show_dict (make_show_dict S)) := rfl
      _ ~ flattenShowDict (make_show_dict S) :=
          flattenShowDict_order_show_dict _
      _ ~ S.filter showEpPred := flattenShowDict_make_show_dict S hnodup
  unfold sort_media_block_shuffle
  cases randomize with
  | false =>
    rw [if_neg (by simp)]
    calc blockRoundLoop bl
          ((((order_show_dict (make_show_dict S)).map
            (fun p => flattenSeasonDict p.2)).map List.length).sum)
          ((order_show_dict (make_show_dict S)).map
            (fun p => flattenSeasonDict p.2)) ++ get_non_shows S
        ~ ((order_show_dict (make_show_dict S)).map
            (fun p => flattenSeasonDict p.2)).flatten ++ get_non_shows S := by
          refine List.Perm.append_right _ ?_
          refine blockRoundLoop_perm bl hbl _ _ ?_
          rw [List.length_flatten]
      _ ~ S.filter showEpPred ++ get_non_shows S :=
          hflat.append_right _
      _ ~ S := partition_perm S hwf
  | true =>
    rw [if_pos rfl]
    calc blockRandomLoop bl showO sizeO
          ((((order_show_dict (make_show_dict S)).map
            (fun p => flattenSeasonDict p.2)).map List.length).sum +
            ((order_show_dict (make_show_dict S)).map
              (fun p => flattenSeasonDict p.2)).length)
          ((order_show_dict (make_show_dict S)).map
            (fun p => flattenSeasonDict p.2)) ++ get_non_shows S
        ~ ((order_show_dict (make_show_dict S)).map
            (fun p => flattenSeasonDict p.2)).flatten ++ get_non_shows S := by
          refine List.Perm.append_right _ ?_
          refine blockRandomLoop_perm bl showO sizeO _ _ ?_
          rw [List.length_flatten]
      _ ~ S.filter showEpPred ++ get_non_shows S :=
          hflat.append_right _
      _ ~ S := partition_perm S hwf

/-! Sub-multiset facts for the filtering strategies. -/

/-- The balance-shows acceptance walk selects an initial—in particular a
sub—segment of the show's episode list. -/
theorem acceptEpisodes_sublist (shortest : Nat) (margin : ℚ) :
    ∀ (l : List MediaItem) (running : Nat),
      acceptEpisodes shortest margin running l <+ l := by
  intro l
  induction l with
  | nil => intro running; simp [acceptEpisodes]
  | cons e rest ih =>
    intro running
    unfold acceptEpisodes
    split
    · exact (ih _).cons₂ e
    · exact List.nil_sublist _

/-- Pointwise sublists lift through `flatMap`. -/
theorem flatMap_sublist {α β : Type} (l : List α) (f g : α → List β)
    (h : ∀ a ∈ l, f a <+ g a) : l.flatMap f <+ l.flatMap g := by
  induction l with
  | nil => simp
  | cons a t ih =>
    simp only [List.flatMap_cons]
    exact (h a (List.mem_cons_self _ _)).append
      (ih (fun b hb => h b (List.mem_cons_of_mem _ hb)))

/-- Subpermutations are compatible with append. -/
theorem subperm_append {α : Type} {l₁ l₂ r₁ r₂ : List α}
    (h₁ : l₁ <+~ l₂) (h₂ : r₁ <+~ r₂) : l₁ ++ r₁ <+~ l₂ ++ r₂ := by
  obtain ⟨l, hlp, hls⟩ := h₁
  obtain ⟨r, hrp, hrs⟩ := h₂
  exact ⟨l ++ r, hlp.append hrp, hls.append hrs⟩

/-- C1 part: whenever `balance_shows` returns, its output is a sub-multiset
of a well-formed, duplicate-free input. -/
theorem balance_shows_subperm (S : List MediaItem) (margin : ℚ)
    (out : List MediaItem) (hwf : ∀ it ∈ S, wfItem it)
    (hnodup : ((S.filter showEpPred).map key3).Nodup)
    (h : balance_shows S margin = some out) : out <+~ S := by
  unfold balance_shows at h
  revert h
  cases hmin : ((order_show_dict (make_show_dict S)).map
      (fun p => showDictDuration p.2)).min? with
  | none => intro h; cases h
  | some shortest =>
    intro h
    dsimp only at h
    by_cases hz : shortest = 0
    · rw [if_pos hz] at h
      cases h
    · rw [if_neg hz] at h
      have hout := (Option.some.injEq _ _).mp h
      subst hout
      have h1 : (order_show_dict (make_show_dict S)).flatMap
          (fun p => acceptEpisodes shortest (1 + margin) 0
            (flattenSeasonDict p.2)) <+~ S.filter showEpPred := by
        have hsub : (order_show_dict (make_show_dict S)).flatMap
            (fun p => acceptEpisodes shortest (1 + margin) 0
              (flattenSeasonDict p.2)) <+
              (order_show_dict (make_show_dict S)).flatMap
                (fun p => flattenSeasonDict p.2) :=
          flatMap_sublist _ _ _
            (fun p _ => acceptEpisodes_sublist shortest (1 + margin)
              (flattenSeasonDict p.2) 0)
        refine hsub.subperm.trans ?_
        refine List.Perm.subperm ?_
        calc (order_show_dict (make_show_dict S)).flatMap
              (fun p => flattenSeasonDict p.2)
            = flattenShowDict (order_show_dict (make_show_dict S)) := rfl
          _ ~ flattenShowDict (make_show_dict S) :=
              flattenShowDict_order_show_dict _
          _ ~ S.filter showEpPred := flattenShowDict_make_show_dict S hnodup
      have h2 : sort_media_alphabetically (get_non_shows S) <+~
          get_non_shows S := (sort_media_alphabetically_perm _).subperm
      have h3 := subperm_append h1 h2
      refine h3.trans (List.Perm.subperm (partition_perm S hwf))

/-- C1: on a well-formed input with pairwise-distinct episode triples, the
alphabetical, release-date (when all dates parse), season-order, random,
cyclical-shuffle and block-shuffle strategies return permutations of the
input (hence preserve the total duration), while By-Duration and Balance
Shows return sub-multisets of the input. -/
theorem c1_ordering_strategies (S : List MediaItem) (bl : Nat) (margin : ℚ)
    (o1 nsO rotO showO bshowO bsizeO : Nat → Nat) (catO : Nat → Bool)
    (hwf : ∀ it ∈ S, wfItem it)
    (hnodup : ((S.filter showEpPred).map key3).Nodup) (hbl : 1 ≤ bl) :
    sort_media_alphabetically S ~ S ∧
    ((sort_media_alphabetically S).map MediaItem.duration).sum =
      (S.map MediaItem.duration).sum ∧
    (∀ out, sort_media_by_release_date S = some out → out ~ S) ∧
    sort_media_by_season_order S ~ S ∧
    ((sort_media_by_season_order S).map MediaItem.duration).sum =
      (S.map MediaItem.duration).sum ∧
    sort_media_randomly o1 S ~ S ∧
    sort_media_cyclical_shuffle nsO rotO showO catO S ~ S ∧
    sort_media_block_shuffle S bl false bshowO bsizeO ~ S ∧
    sort_media_block_shuffle S bl true bshowO bsizeO ~ S ∧
    sort_media_by_duration S <+~ S ∧
    (∀ out, balance_shows S margin = some out → out <+~ S) := by
  have halpha := sort_media_alphabetically_perm S
  have hseason := sort_media_by_season_order_perm S hwf hnodup
  refine ⟨halpha, (halpha.map MediaItem.duration).sum_eq, ?_, hseason,
    (hseason.map MediaItem.duration).sum_eq, ?_, ?_, ?_, ?_, ?_, ?_⟩
  · intro out hout
    exact sort_media_by_release_date_perm S out hout
  · exact shuffleList_perm o1 S
  · exact sort_media_cyclical_shuffle_perm nsO rotO showO catO S hwf hnodup
  · exact sort_media_block_shuffle_perm S bl hbl false bshowO bsizeO hwf hnodup
  · exact sort_media_block_shuffle_perm S bl hbl true bshowO bsizeO hwf hnodup
  · exact sort_media_by_duration_subperm S
  · intro out hout
    exact balance_shows_subperm S margin out hwf hnodup hout

/-- C1 witness: a concrete three-item lineup (two episodes of different
shows and a movie) with block length 1, margin 0 and constant oracles. -/
theorem c1_ordering_strategies_witness :
    (∀ it ∈ ([sampleEpA11, sampleEpB21, sampleMovie] : List MediaItem),
      wfItem it) ∧
    ((([sampleEpA11, sampleEpB21, sampleMovie] : List MediaItem).filter
      showEpPred).map key3).Nodup ∧
    1 ≤ 1 ∧
    (sort_media_alphabetically [sampleEpA11, sampleEpB21, sampleMovie] ~
        [sampleEpA11, sampleEpB21, sampleMovie] ∧
      ((sort_media_alphabetically
          [sampleEpA11, sampleEpB21, sampleMovie]).map MediaItem.duration).sum =
        (([sampleEpA11, sampleEpB21, sampleMovie] : List MediaItem).map
          MediaItem.duration).sum ∧
      (∀ out, sort_media_by_release_date
          [sampleEpA11, sampleEpB21, sampleMovie] = some out →
        out ~ [sampleEpA11, sampleEpB21, sampleMovie]) ∧
      sort_media_by_season_order [sampleEpA11, sampleEpB21, sampleMovie] ~
        [sampleEpA11, sampleEpB21, sampleMovie] ∧
      ((sort_media_by_season_order
          [sampleEpA11, sampleEpB21, sampleMovie]).map MediaItem.duration).sum =
        (([sampleEpA11, sampleEpB21, sampleMovie] : List MediaItem).map
          MediaItem.duration).sum ∧
      sort_media_randomly (fun _ => 0) [sampleEpA11, sampleEpB21, sampleMovie] ~
        [sampleEpA11, sampleEpB21, sampleMovie] ∧
      sort_media_cyclical_shuffle (fun _ => 0) (fun _ => 0) (fun _ => 0)
          (fun _ => false) [sampleEpA11, sampleEpB21, sampleMovie] ~
        [sampleEpA11, sampleEpB21, sampleMovie] ∧
      sort_media_block_shuffle [sampleEpA11, sampleEpB21, sampleMovie] 1 false
          (fun _ => 0) (fun _ => 0) ~
        [sampleEpA11, sampleEpB21, sampleMovie] ∧
      sort_media_block_shuffle [sampleEpA11, sampleEpB21, sampleMovie] 1 true
          (fun _ => 0) (fun _ => 0) ~
        [sampleEpA11, sampleEpB21, sampleMovie] ∧
      sort_media_by_duration [sampleEpA11, sampleEpB21, sampleMovie] <+~
        [sampleEpA11, sampleEpB21, sampleMovie] ∧
      (∀ out, balance_shows [sampleEpA11, sampleEpB21, sampleMovie] 0 =
          some out →
        out <+~ [sampleEpA11, sampleEpB21, sampleMovie])) :=
  ⟨by decide, by decide, by decide,
    c1_ordering_strategies [sampleEpA11, sampleEpB21, sampleMovie] 1 0
      (fun _ => 0) (fun _ => 0) (fun _ => 0) (fun _ => 0) (fun _ => 0)
      (fun _ => 0) (fun _ => false) (by decide) (by decide) (by decide)⟩

/-- C1 counterexample: two copies of the same episode collapse to one in
the season-order grouping (last write wins at the (show, season, episode)
key), so the strategy is not a permutation and the duration sum is not
preserved. -/
theorem c1_ordering_strategies_counterexample :
    sort_media_by_season_order [sampleEpA11, sampleEpA11] = [sampleEpA11] ∧
    ¬(sort_media_by_season_order [sampleEpA11, sampleEpA11] ~
      [sampleEpA11, sampleEpA11]) ∧
    ((sort_media_by_season_order [sampleEpA11, sampleEpA11]).map
        MediaItem.duration).sum ≠
      (([sampleEpA11, sampleEpA11] : List MediaItem).map
        MediaItem.duration).sum := by
  refine ⟨by decide, by decide, by decide⟩

/-- C8 witness: equal start and end hour on a concrete channel state. -/
theorem c8_night_block_validation_witness :
    ((3 : Int) = 3 ∨ (3 : Int) < 0 ∨ (3 : Int) > 23 ∨ (3 : Int) < 0 ∨
      (3 : Int) > 23 ∨ 4 ∉ ([4, 5] : List Nat)) ∧
    runAddChannelAtNight ⟨[sampleMovie], "start"⟩ [4, 5] 4 3 3 "new" =
      ⟨[sampleMovie], "start"⟩ :=
  ⟨Or.inl rfl,
    (c8_night_block_validation ⟨[sampleMovie], "start"⟩ [4, 5] 4 3 3 "new" 0
      (Or.inl rfl)).2.1⟩

/-- Updating a present key leaves the key list unchanged. -/
theorem updD_map_fst_mem {κ ν : Type} [DecidableEq κ] (k : κ)
    (f : Option ν → ν) (d : List (κ × ν)) (h : k ∈ d.map Prod.fst) :
    (updD k f d).map Prod.fst = d.map Prod.fst := by
  obtain ⟨A, v, B, hd, _, hupd⟩ := updD_mem_decomp k f d h
  rw [hupd, hd]
  simp

/-- Updating a fresh key appends it to the key list. -/
theorem updD_map_fst_not_mem {κ ν : Type} [DecidableEq κ] (k : κ)
    (f : Option ν → ν) (d : List (κ × ν)) (h : k ∉ d.map Prod.fst) :
    (updD k f d).map Prod.fst = d.map Prod.fst ++ [k] := by
  rw [updD_not_mem k f d h]
  simp

/-- The grouping fold records show titles in first-appearance order, for
any starting dictionary. -/
theorem foldl_insert_map_fst :
    ∀ (S : List MediaItem) (d : ShowDict),
      (S.foldl (fun d it => if showEpPred it then insertEpisode d it else d)
          d).map Prod.fst =
        (S.filter showEpPred).foldl
          (fun acc it =>
            if it.showTitle ∈ acc then acc else acc ++ [it.showTitle])
          (d.map Prod.fst) := by
  intro S
  induction S with
  | nil => intro d; rfl
  | cons x S ih =>
    intro d
    by_cases hx : showEpPred x = true
    · rw [List.foldl_cons, if_pos hx, List.filter_cons_of_pos hx,
        List.foldl_cons, ih]
      congr 1
      unfold insertEpisode
      by_cases ht : x.showTitle ∈ d.map Prod.fst
      · rw [updD_map_fst_mem _ _ _ ht, if_pos ht]
      · rw [updD_map_fst_not_mem _ _ _ ht, if_neg ht]
    · have hxf : showEpPred x = false := by
        cases hb : showEpPred x
        · rfl
        · exact absurd hb hx
      rw [List.foldl_cons, if_neg hx,
        List.filter_cons_of_neg (by simp [hxf]), ih]

/-- The keys of the grouping dictionary are the show titles in
first-appearance order. -/
theorem make_show_dict_map_fst (S : List MediaItem) :
    (make_show_dict S).map Prod.fst = specShowTitles S := by
  have h := foldl_insert_map_fst S []
  simpa [make_show_dict, specShowTitles] using h

/-- Sorting the lower levels leaves the outer key list unchanged. -/
theorem order_show_dict_map_fst (d : ShowDict) :
    (order_show_dict d).map Prod.fst = d.map Prod.fst := by
  simp [order_show_dict, List.map_map, Function.comp_def]

/-- A fresh-key append preserves key distinctness. -/
theorem nodup_append_singleton {κ : Type} [DecidableEq κ] {l : List κ}
    {k : κ} (h : l.Nodup) (hk : k ∉ l) : (l ++ [k]).Nodup := by
  simp [List.nodup_append, h, hk]

/-- An update preserves key distinctness. -/
theorem updD_nodup_fst {κ ν : Type} [DecidableEq κ] (k : κ)
    (f : Option ν → ν) (d : List (κ × ν)) (h : (d.map Prod.fst).Nodup) :
    ((updD k f d).map Prod.fst).Nodup := by
  by_cases hk : k ∈ d.map Prod.fst
  · rw [updD_map_fst_mem _ _ _ hk]
    exact h
  · rw [updD_map_fst_not_mem _ _ _ hk]
    exact nodup_append_singleton h hk

/-- Inserting one item below its own show keeps the per-show part of the
dictionary invariant. -/
theorem insertSeasonEp_inv (it : MediaItem) (sd : SeasonDict)
    (hnod : (sd.map Prod.fst).Nodup)
    (hq : ∀ q ∈ sd, (q.2.map Prod.fst).Nodup ∧
      ∀ r ∈ q.2, r.2.showTitle = it.showTitle ∧ r.2.season = q.1 ∧
        r.2.episode = r.1) :
    ((insertSeasonEp sd it).map Prod.fst).Nodup ∧
      ∀ q ∈ insertSeasonEp sd it, (q.2.map Prod.fst).Nodup ∧
        ∀ r ∈ q.2, r.2.showTitle = it.showTitle ∧ r.2.season = q.1 ∧
          r.2.episode = r.1 := by
  constructor
  · exact updD_nodup_fst _ _ _ hnod
  · intro q hqm
    unfold insertSeasonEp at hqm
    rcases mem_updD hqm with h | h | ⟨ed, hed, hqe⟩
    · exact hq q h
    · subst h
      refine ⟨by simp [updD], ?_⟩
      intro r hr
      simp only [Option.getD_none, updD] at hr
      rcases List.mem_cons.mp hr with h | h
      · subst h
        exact ⟨rfl, rfl, rfl⟩
      · cases h
    · subst hqe
      obtain ⟨hed1, hed2⟩ := hq (it.season, ed) hed
      simp only [Option.getD_some]
      refine ⟨updD_nodup_fst _ _ _ hed1, ?_⟩
      intro r hr
      rcases mem_updD hr with h | h | ⟨w, hw, hrw⟩
      · exact hed2 r h
      · subst h
        exact ⟨rfl, rfl, rfl⟩
      · subst hrw
        exact ⟨rfl, rfl, rfl⟩

/-- One grouping insertion preserves the dictionary invariant. -/
theorem dictInv_insertEpisode {d : ShowDict} (hd : dictInv d)
    (it : MediaItem) : dictInv (insertEpisode d it) := by
  obtain ⟨hkeys, hent⟩ := hd
  constructor
  · exact updD_nodup_fst _ _ _ hkeys
  · intro p hp
    unfold insertEpisode at hp
    rcases mem_updD hp with h | h | ⟨sd, hsd, hpe⟩
    · exact hent p h
    · subst h
      simp [insertSeasonEp, updD]
    · subst hpe
      obtain ⟨hsd1, hsd2⟩ := hent (it.showTitle, sd) hsd
      simp only [Option.getD_some]
      exact insertSeasonEp_inv it sd hsd1 hsd2

/-- The grouping fold satisfies the dictionary invariant. -/
theorem dictInv_make_show_dict (S : List MediaItem) :
    dictInv (make_show_dict S) := by
  suffices h : ∀ (l : List MediaItem) (d : ShowDict), dictInv d →
      dictInv (l.foldl
        (fun d it => if showEpPred it then insertEpisode d it else d) d) by
    exact h S [] ⟨List.nodup_nil, fun p hp => absurd hp (List.not_mem_nil p)⟩
  intro l
  induction l with
  | nil => intro d hd; exact hd
  | cons x t ih =>
    intro d hd
    simp only [List.foldl_cons]
    by_cases hx : showEpPred x = true
    · rw [if_pos hx]
      exact ih _ (dictInv_insertEpisode hd x)
    · rw [if_neg hx]
      exact ih _ hd

/-- Sorting the lower levels preserves the dictionary invariant. -/
theorem dictInv_order_show_dict {d : ShowDict} (hd : dictInv d) :
    dictInv (order_show_dict d) := by
  obtain ⟨hkeys, hent⟩ := hd
  constructor
  · rw [order_show_dict_map_fst]
    exact hkeys
  · intro p hp
    unfold order_show_dict at hp
    obtain ⟨p0, hp0, hpe⟩ := List.mem_map.mp hp
    obtain ⟨h1, h2⟩ := hent p0 hp0
    subst hpe
    constructor
    · have hkp : (sortByKey leOptNat
          (p0.2.map (fun q => (q.1, sortByKey leOptNat q.2)))).map Prod.fst ~
            p0.2.map Prod.fst := by
        have h := (sortByKey_perm leOptNat
          (p0.2.map (fun q => (q.1, sortByKey leOptNat q.2)))).map Prod.fst
        simpa [List.map_map, Function.comp_def] using h
      exact hkp.nodup_iff.mpr h1
    · intro q hq
      have hq2 : q ∈ p0.2.map (fun q => (q.1, sortByKey leOptNat q.2)) :=
        (sortByKey_perm _ _).mem_iff.mp hq
      obtain ⟨q0, hq0, hqe⟩ := List.mem_map.mp hq2
      obtain ⟨hq01, hq02⟩ := h2 q0 hq0
      subst hqe
      constructor
      · have hkq : (sortByKey leOptNat q0.2).map Prod.fst ~
            q0.2.map Prod.fst := (sortByKey_perm _ _).map Prod.fst
        exact hkq.nodup_iff.mpr hq01
      · intro r hr
        exact hq02 r ((sortByKey_perm _ _).mem_iff.mp hr)

/-- Members of a stable insertion. -/
theorem mem_orderedInsertB {α : Type} {le : α → α → Bool} {a x : α}
    {l : List α} (h : x ∈ orderedInsertB le a l) : x = a ∨ x ∈ l := by
  have h2 := (orderedInsertB_perm le a l).mem_iff.mp h
  simpa using h2

/-- A stable insertion into a sorted list is sorted, for a total transitive
comparison. -/
theorem pairwise_orderedInsertB {α : Type} {le : α → α → Bool}
    (htot : ∀ a b, le a b = true ∨ le b a = true)
    (htr : ∀ a b c, le a b = true → le b c = true → le a c = true)
    (a : α) : ∀ {l : List α}, l.Pairwise (fun x y => le x y = true) →
      (orderedInsertB le a l).Pairwise (fun x y => le x y = true) := by
  intro l
  induction l with
  | nil =>
    intro _
    simp [orderedInsertB]
  | cons b t ih =>
    intro hp
    rw [List.pairwise_cons] at hp
    obtain ⟨hb, ht⟩ := hp
    unfold orderedInsertB
    by_cases hab : le a b = true
    · rw [if_pos hab]
      refine List.pairwise_cons.mpr ⟨?_, List.pairwise_cons.mpr ⟨hb, ht⟩⟩
      intro x hx
      rcases List.mem_cons.mp hx with h | h
      · subst h
        exact hab
      · exact htr a b x hab (hb x h)
    · rw [if_neg hab]
      have hba : le b a = true := (htot a b).resolve_left hab
      refine List.pairwise_cons.mpr ⟨?_, ih ht⟩
      intro x hx
      rcases mem_orderedInsertB hx with h | h
      · subst h
        exact hba
      · exact hb x h

/-- The stable insertion sort produces a sorted list, for a total
transitive comparison. -/
theorem pairwise_insertionSortB {α : Type} {le : α → α → Bool}
    (htot : ∀ a b, le a b = true ∨ le b a = true)
    (htr : ∀ a b c, le a b = true → le b c = true → le a c = true) :
    ∀ (l : List α),
      (insertionSortB le l).Pairwise (fun x y => le x y = true) := by
  intro l
  induction l with
  | nil => simp [insertionSortB]
  | cons a t ih => exact pairwise_orderedInsertB htot htr a ih

/-- The optional-number comparison is total. -/
theorem leOptNat_total (a b : Option Nat) :
    leOptNat a b = true ∨ leOptNat b a = true := by
  cases a <;> cases b <;> simp [leOptNat] <;> omega

/-- The optional-number comparison is transitive. -/
theorem leOptNat_trans (a b c : Option Nat) (h1 : leOptNat a b = true)
    (h2 : leOptNat b c = true) : leOptNat a c = true := by
  cases a <;> cases b <;> cases c <;> simp [leOptNat] at * <;> omega

/-- The optional-number comparison is antisymmetric. -/
theorem leOptNat_antisymm (a b : Option Nat) (h1 : leOptNat a b = true)
    (h2 : leOptNat b a = true) : a = b := by
  cases a <;> cases b <;> simp [leOptNat] at * <;> omega

/-- The season/episode comparison is total. -/
theorem leSeasonEpisode_total (a b : MediaItem) :
    leSeasonEpisode a b = true ∨ leSeasonEpisode b a = true := by
  unfold leSeasonEpisode
  by_cases hs : a.season = b.season
  · rw [if_pos hs, if_pos hs.symm]
    exact leOptNat_total _ _
  · rw [if_neg hs, if_neg (fun h => hs h.symm)]
    exact leOptNat_total _ _

/-- The season/episode comparison is transitive. -/
theorem leSeasonEpisode_trans (a b c : MediaItem)
    (h1 : leSeasonEpisode a b = true) (h2 : leSeasonEpisode b c = true) :
    leSeasonEpisode a c = true := by
  unfold leSeasonEpisode at h1 h2 ⊢
  by_cases hab : a.season = b.season <;> by_cases hbc : b.season = c.season
  · rw [if_pos hab] at h1
    rw [if_pos hbc] at h2
    rw [if_pos (hab.trans hbc)]
    exact leOptNat_trans _ _ _ h1 h2
  · rw [if_pos hab] at h1
    rw [if_neg hbc] at h2
    have hac : a.season ≠ c.season := fun h => hbc (hab ▸ h)
    rw [if_neg hac, hab]
    exact h2
  · rw [if_neg hab] at h1
    rw [if_pos hbc] at h2
    have hac : a.season ≠ c.season := fun h => hab (h.trans hbc.symm)
    rw [if_neg hac, ← hbc]
    exact h1
  · rw [if_neg hab] at h1
    rw [if_neg hbc] at h2
    by_cases hac : a.season = c.season
    · exfalso
      refine hab (leOptNat_antisymm _ _ h1 ?_)
      rw [hac]
      exact h2
    · rw [if_neg hac]
      exact leOptNat_trans _ _ _ h1 h2

/-- Two-sided season/episode comparison forces equal coordinates. -/
theorem leSeasonEpisode_antisymm (a b : MediaItem)
    (h1 : leSeasonEpisode a b = true) (h2 : leSeasonEpisode b a = true) :
    seKey a = seKey b := by
  unfold leSeasonEpisode at h1 h2
  by_cases hs : a.season = b.season
  · rw [if_pos hs] at h1
    rw [if_pos hs.symm] at h2
    have he := leOptNat_antisymm _ _ h1 h2
    simp [seKey, hs, he]
  · rw [if_neg hs] at h1
    rw [if_neg (fun h => hs h.symm)] at h2
    exact absurd (leOptNat_antisymm _ _ h1 h2) hs

/-- Two sorted lists of items with pairwise-distinct (season, episode)
coordinates that are permutations of each other are equal. -/
theorem eq_of_perm_of_sortedSE (l₁ l₂ : List MediaItem) (hp : l₁ ~ l₂)
    (h1 : l₁.Pairwise
      (fun x y => leSeasonEpisode x y = true ∧ seKey x ≠ seKey y))
    (h2 : l₂.Pairwise
      (fun x y => leSeasonEpisode x y = true ∧ seKey x ≠ seKey y)) :
    l₁ = l₂ := by
  haveI : IsAntisymm MediaItem
      (fun x y => leSeasonEpisode x y = true ∧ seKey x ≠ seKey y) := by
    refine ⟨?_⟩
    intro a b hab hba
    exact absurd (leSeasonEpisode_antisymm a b hab.1 hba.1) hab.2
  exact List.eq_of_perm_of_sorted hp h1 h2

/-- Entries below show `t` carry `t` as their first key component. -/
theorem mem_showEntries_fst {t : Option String} {sd : SeasonDict}
    {e : (Option String × Option Nat × Option Nat) × MediaItem}
    (he : e ∈ showEntries t sd) : e.1.1 = t := by
  unfold showEntries at he
  obtain ⟨q, _, he2⟩ := List.mem_flatMap.mp he
  unfold seasonEntries at he2
  obtain ⟨r, _, he3⟩ := List.mem_map.mp he2
  rw [← he3]

/-- The first key component of any entry is a key of the dictionary. -/
theorem mem_dictEntries_fst {d : ShowDict}
    {e : (Option String × Option Nat × Option Nat) × MediaItem}
    (he : e ∈ dictEntries d) : e.1.1 ∈ d.map Prod.fst := by
  unfold dictEntries at he
  obtain ⟨p, hp, he2⟩ := List.mem_flatMap.mp he
  rw [mem_showEntries_fst he2]
  exact List.mem_map.mpr ⟨p, hp, rfl⟩

/-- On a dictionary with distinct keys, filtering the entries to one show
recovers exactly that show's block. -/
theorem dictEntries_filter_fst :
    ∀ (d : ShowDict), (d.map Prod.fst).Nodup →
      ∀ (t : Option String) (sd : SeasonDict), (t, sd) ∈ d →
        (dictEntries d).filter (fun e => e.1.1 == t) = showEntries t sd := by
  intro d
  induction d with
  | nil =>
    intro _ t sd h
    cases h
  | cons p d ih =>
    intro hnod t sd hm
    have hnod2 : p.1 ∉ d.map Prod.fst ∧ (d.map Prod.fst).Nodup := by
      rw [List.map_cons] at hnod
      exact List.nodup_cons.mp hnod
    have hde : dictEntries (p :: d) =
        showEntries p.1 p.2 ++ dictEntries d := by
      simp [dictEntries]
    rw [hde, List.filter_append]
    rcases List.mem_cons.mp hm with h | h
    · have hp1 : p.1 = t := by rw [← h]
      have hfilter1 : (showEntries p.1 p.2).filter (fun e => e.1.1 == t) =
          showEntries p.1 p.2 := by
        refine List.filter_eq_self.mpr ?_
        intro e he
        simp [mem_showEntries_fst he, hp1]
      have hfilter2 : (dictEntries d).filter (fun e => e.1.1 == t) = [] := by
        refine List.filter_eq_nil_iff.mpr ?_
        intro e he
        have hkey := mem_dictEntries_fst he
        have hne : e.1.1 ≠ t := by
          intro hcontra
          exact hnod2.1 (by rw [hp1, ← hcontra]; exact hkey)
        simp [hne]
      rw [hfilter1, hfilter2, List.append_nil, ← h]
    · have ht : t ∈ d.map Prod.fst := List.mem_map.mpr ⟨(t, sd), h, rfl⟩
      have hpt : p.1 ≠ t := fun hcontra => hnod2.1 (hcontra ▸ ht)
      have hfilter1 : (showEntries p.1 p.2).filter (fun e => e.1.1 == t) =
          [] := by
        refine List.filter_eq_nil_iff.mpr ?_
        intro e he
        simp [mem_showEntries_fst he, hpt]
      rw [hfilter1, List.nil_append]
      exact ih hnod2.2 t sd h

/-- A show's block in the grouping dictionary holds exactly the input
episodes of that show, up to permutation. -/
theorem showEntries_perm_filter (S : List MediaItem)
    (hnodup : ((S.filter showEpPred).map key3).Nodup)
    (t : Option String) (sd : SeasonDict)
    (hm : (t, sd) ∈ make_show_dict S) :
    showEntries t sd ~
      ((S.filter showEpPred).filter (fun it => it.showTitle == t)).map
        (fun it => (key3 it, it)) := by
  have hkeys : ((make_show_dict S).map Prod.fst).Nodup :=
    (dictInv_make_show_dict S).1
  have h1 := dictEntries_filter_fst (make_show_dict S) hkeys t sd hm
  have h2 := (dictEntries_make_show_dict S hnodup).filter
    (fun e => e.1.1 == t)
  rw [h1] at h2
  rw [List.filter_map] at h2
  simpa [key3, Function.comp_def] using h2

/-- Flattening a show's block yields that show's input episodes, up to
permutation. -/
theorem flattenSeasonDict_perm_filter (S : List MediaItem)
    (hnodup : ((S.filter showEpPred).map key3).Nodup)
    (t : Option String) (sd : SeasonDict)
    (hm : (t, sd) ∈ make_show_dict S) :
    flattenSeasonDict sd ~
      (S.filter showEpPred).filter (fun it => it.showTitle == t) := by
  have h := (showEntries_perm_filter S hnodup t sd hm).map Prod.snd
  have hL : (showEntries t sd).map Prod.snd = flattenSeasonDict sd := by
    simp [showEntries, seasonEntries, flattenSeasonDict, List.map_flatMap,
      List.map_map, Function.comp_def]
  rw [hL] at h
  simpa [List.map_map, Function.comp_def] using h

/-- Sorting the season and episode levels of one show permutes its
flattened episodes. -/
theorem flattenSeasonDict_sort_perm (sd : SeasonDict) :
    flattenSeasonDict (sortByKey leOptNat
        (sd.map (fun q => (q.1, sortByKey leOptNat q.2)))) ~
      flattenSeasonDict sd := by
  unfold flattenSeasonDict
  calc (sortByKey leOptNat
        (sd.map (fun q => (q.1, sortByKey leOptNat q.2)))).flatMap
          (fun q => q.2.map Prod.snd)
      ~ (sd.map (fun q => (q.1, sortByKey leOptNat q.2))).flatMap
          (fun q => q.2.map Prod.snd) :=
        List.Perm.flatMap_right _ (sortByKey_perm _ _)
    _ = sd.flatMap (fun q => (sortByKey leOptNat q.2).map Prod.snd) := by
        simp [List.flatMap_map, Function.comp_def]
    _ ~ sd.flatMap (fun q => q.2.map Prod.snd) :=
        List.Perm.flatMap_left _ (fun q _ => (sortByKey_perm _ _).map _)

/-- After ordering, one show's flattened episodes are strictly sorted in
season/episode order (keys are distinct at both levels). -/
theorem flattenSeasonDict_order_sorted (sd : SeasonDict)
    (hnod : (sd.map Prod.fst).Nodup)
    (hq : ∀ q ∈ sd, (q.2.map Prod.fst).Nodup ∧
      ∀ r ∈ q.2, r.2.season = q.1 ∧ r.2.episode = r.1) :
    (flattenSeasonDict (sortByKey leOptNat
        (sd.map (fun q => (q.1, sortByKey leOptNat q.2))))).Pairwise
      (fun x y => leSeasonEpisode x y = true ∧ seKey x ≠ seKey y) := by
  set sd' := sortByKey leOptNat
    (sd.map (fun q => (q.1, sortByKey leOptNat q.2))) with hsd'
  have hdecomp : ∀ q ∈ sd', ∃ q0 ∈ sd, q = (q0.1, sortByKey leOptNat q0.2) := by
    intro q hqm
    have hq2 : q ∈ sd.map (fun q => (q.1, sortByKey leOptNat q.2)) :=
      (sortByKey_perm _ _).mem_iff.mp hqm
    obtain ⟨q0, hq0, hqe⟩ := List.mem_map.mp hq2
    exact ⟨q0, hq0, hqe.symm⟩
  have hmemc : ∀ q ∈ sd', ∀ r ∈ q.2, r.2.season = q.1 ∧ r.2.episode = r.1 := by
    intro q hqm r hr
    obtain ⟨q0, hq0, hqe⟩ := hdecomp q hqm
    have hr0 : r ∈ q0.2 := by
      rw [hqe] at hr
      exact (sortByKey_perm _ _).mem_iff.mp hr
    have hc := (hq q0 hq0).2 r hr0
    rw [hqe]
    exact ⟨hc.1, hc.2⟩
  have hblock : ∀ q ∈ sd',
      q.2.Pairwise (fun r1 r2 => leOptNat r1.1 r2.1 = true ∧ r1.1 ≠ r2.1) := by
    intro q hqm
    obtain ⟨q0, hq0, hqe⟩ := hdecomp q hqm
    have hs : (sortByKey leOptNat q0.2).Pairwise
        (fun r1 r2 => leOptNat r1.1 r2.1 = true) :=
      pairwise_insertionSortB
        (fun (a b : Option Nat × MediaItem) => leOptNat_total a.1 b.1)
        (fun (a b c : Option Nat × MediaItem) =>
          leOptNat_trans a.1 b.1 c.1) q0.2
    have hn : ((sortByKey leOptNat q0.2).map Prod.fst).Nodup :=
      (((sortByKey_perm leOptNat q0.2).map Prod.fst).nodup_iff).mpr
        (hq q0 hq0).1
    have hne : (sortByKey leOptNat q0.2).Pairwise
        (fun r1 r2 => r1.1 ≠ r2.1) := List.pairwise_map.mp hn
    rw [hqe]
    exact hs.and hne
  have houter : sd'.Pairwise
      (fun q1 q2 => leOptNat q1.1 q2.1 = true ∧ q1.1 ≠ q2.1) := by
    have hs : sd'.Pairwise (fun q1 q2 => leOptNat q1.1 q2.1 = true) :=
      pairwise_insertionSortB
        (fun (a b : Option Nat × EpisodeDict) => leOptNat_total a.1 b.1)
        (fun (a b c : Option Nat × EpisodeDict) =>
          leOptNat_trans a.1 b.1 c.1) _
    have hkeyperm : sd'.map Prod.fst ~ sd.map Prod.fst := by
      have h := (sortByKey_perm leOptNat
        (sd.map (fun q => (q.1, sortByKey leOptNat q.2)))).map Prod.fst
      simpa [List.map_map, Function.comp_def] using h
    have hn : (sd'.map Prod.fst).Nodup := hkeyperm.nodup_iff.mpr hnod
    exact hs.and (List.pairwise_map.mp hn)
  unfold flattenSeasonDict
  rw [List.flatMap_def, List.pairwise_flatten]
  constructor
  · intro l hl
    obtain ⟨q, hqm, hle⟩ := List.mem_map.mp hl
    rw [← hle, List.pairwise_map]
    refine (hblock q hqm).imp_of_mem ?_
    intro r1 r2 hr1 hr2 hrel
    obtain ⟨hc1, hc2⟩ := hmemc q hqm r1 hr1
    obtain ⟨hd1, hd2⟩ := hmemc q hqm r2 hr2
    constructor
    · unfold leSeasonEpisode
      rw [if_pos (hc1.trans hd1.symm), hc2, hd2]
      exact hrel.1
    · intro hse
      apply hrel.2
      have h2 := congrArg Prod.snd hse
      simp only [seKey] at h2
      rw [← hc2, ← hd2]
      exact h2
  · rw [List.pairwise_map]
    refine houter.imp_of_mem ?_
    intro q1 q2 hq1 hq2 hrel x hx y hy
    obtain ⟨r1, hr1, hx2⟩ := List.mem_map.mp hx
    obtain ⟨r2, hr2, hy2⟩ := List.mem_map.mp hy
    have hc1 := (hmemc q1 hq1 r1 hr1).1
    have hc2 := (hmemc q2 hq2 r2 hr2).1
    have hxs : x.season = q1.1 := by rw [← hx2]; exact hc1
    have hys : y.season = q2.1 := by rw [← hy2]; exact hc2
    constructor
    · unfold leSeasonEpisode
      rw [if_neg (by rw [hxs, hys]; exact hrel.2), hxs, hys]
      exact hrel.1
    · intro hse
      apply hrel.2
      have h1 := congrArg Prod.fst hse
      simp only [seKey] at h1
      rw [← hxs, ← hys]
      exact h1

/-- The specification-side episode list of one show is strictly sorted in
season/episode order, on a duplicate-free input. -/
theorem specShowEpisodes_sorted (S : List MediaItem) (t : Option String)
    (hnodup : ((S.filter showEpPred).map key3).Nodup) :
    (specShowEpisodes S t).Pairwise
      (fun x y => leSeasonEpisode x y = true ∧ seKey x ≠ seKey y) := by
  have hle : (specShowEpisodes S t).Pairwise
      (fun x y => leSeasonEpisode x y = true) :=
    pairwise_insertionSortB leSeasonEpisode_total leSeasonEpisode_trans _
  have hsub : ((S.filter showEpPred).filter
      (fun it => it.showTitle == t)).Sublist (S.filter showEpPred) :=
    List.filter_sublist _
  have hk3 : (((S.filter showEpPred).filter
      (fun it => it.showTitle == t)).map key3).Nodup :=
    List.Nodup.sublist (hsub.map key3) hnodup
  have hpair : ((S.filter showEpPred).filter
      (fun it => it.showTitle == t)).Pairwise
        (fun a b => seKey a ≠ seKey b) := by
    refine (List.pairwise_map.mp hk3).imp_of_mem ?_
    intro a b ha hb hrel hse
    have hta : a.showTitle = t := by
      have := (List.mem_filter.mp ha).2
      simpa using this
    have htb : b.showTitle = t := by
      have := (List.mem_filter.mp hb).2
      simpa using this
    apply hrel
    have h1 := congrArg Prod.fst hse
    have h2 := congrArg Prod.snd hse
    simp only [seKey] at h1 h2
    simp [key3, hta, htb, h1, h2]
  have hne : (specShowEpisodes S t).Pairwise
      (fun x y => seKey x ≠ seKey y) := by
    have hn1 : (((S.filter showEpPred).filter
        (fun it => it.showTitle == t)).map seKey).Nodup :=
      List.pairwise_map.mpr hpair
    have hn2 : ((specShowEpisodes S t).map seKey).Nodup := by
      refine (((insertionSortB_perm leSeasonEpisode _).map seKey).nodup_iff).mpr hn1
    exact List.pairwise_map.mp hn2
  exact hle.and hne

/-- Each ordered dictionary entry flattens to exactly the
specification-side episode list of its show. -/
theorem flatten_order_entry_eq (S : List MediaItem)
    (hnodup : ((S.filter showEpPred).map key3).Nodup)
    (p : Option String × SeasonDict)
    (hp : p ∈ order_show_dict (make_show_dict S)) :
    flattenSeasonDict p.2 = specShowEpisodes S p.1 := by
  unfold order_show_dict at hp
  obtain ⟨p0, hp0, hpe⟩ := List.mem_map.mp hp
  obtain ⟨hnod0, hent0⟩ := (dictInv_make_show_dict S).2 p0 hp0
  subst hpe
  dsimp only
  apply eq_of_perm_of_sortedSE
  · calc flattenSeasonDict (sortByKey leOptNat
          (p0.2.map (fun q => (q.1, sortByKey leOptNat q.2))))
        ~ flattenSeasonDict p0.2 := flattenSeasonDict_sort_perm p0.2
      _ ~ (S.filter showEpPred).filter (fun it => it.showTitle == p0.1) :=
          flattenSeasonDict_perm_filter S hnodup p0.1 p0.2 hp0
      _ ~ specShowEpisodes S p0.1 :=
          (insertionSortB_perm leSeasonEpisode _).symm
  · refine flattenSeasonDict_order_sorted p0.2 hnod0 ?_
    intro q hq
    obtain ⟨h1, h2⟩ := hent0 q hq
    exact ⟨h1, fun r hr => ⟨(h2 r hr).2.1, (h2 r hr).2.2⟩⟩
  · exact specShowEpisodes_sorted S p0.1 hnodup

/-- The ordered grouping dictionary, read as (show, episode list) pairs,
is exactly the specification-side show walk. -/
theorem order_make_map_eq (S : List MediaItem)
    (hnodup : ((S.filter showEpPred).map key3).Nodup) :
    (order_show_dict (make_show_dict S)).map
        (fun p => (p.1, flattenSeasonDict p.2)) =
      (specShowTitles S).map (fun t => (t, specShowEpisodes S t)) := by
  have h1 : (order_show_dict (make_show_dict S)).map
      (fun p => (p.1, flattenSeasonDict p.2)) =
        (order_show_dict (make_show_dict S)).map
          (fun p => (p.1, specShowEpisodes S p.1)) := by
    apply List.map_congr_left
    intro p hp
    rw [flatten_order_entry_eq S hnodup p hp]
  rw [h1]
  have h2 : (order_show_dict (make_show_dict S)).map
      (fun p => (p.1, specShowEpisodes S p.1)) =
        ((order_show_dict (make_show_dict S)).map Prod.fst).map
          (fun t => (t, specShowEpisodes S t)) := by
    rw [List.map_map]
    rfl
  rw [h2, order_show_dict_map_fst, make_show_dict_map_fst]

/-- C4: on a well-formed input (so Python's key sorts never compare a
`None`, see `wfItem`) without duplicate episode triples, the Balance Shows
embedding agrees with its specification-side description in every respect
but one corrected detail: the accepted episodes of the shows are
concatenated in first-appearance order of the shows (Python dict insertion
order), each show's episodes in season/episode order, with the greedy
duration test against the shortest show, followed by the alphabetically
sorted non-shows; both sides fail on episode-free inputs and on a zero
shortest length. -/
theorem c4_balance_refinement (S : List MediaItem) (margin : ℚ)
    (_hwf : ∀ it ∈ S, wfItem it)
    (hnodup : ((S.filter showEpPred).map key3).Nodup) :
    balance_shows S margin = balanceSpec S margin := by
  have hmap := order_make_map_eq S hnodup
  have hdur : (order_show_dict (make_show_dict S)).map
      (fun p => showDictDuration p.2) =
        (specShowTitles S).map
          (fun t => ((specShowEpisodes S t).map MediaItem.duration).sum) := by
    have h := congrArg (List.map
      (fun pr : Option String × List MediaItem =>
        (pr.2.map MediaItem.duration).sum)) hmap
    rw [List.map_map, List.map_map] at h
    simpa [Function.comp_def, showDictDuration] using h
  unfold balance_shows balanceSpec
  rw [hdur]
  cases hmin : ((specShowTitles S).map
      (fun t => ((specShowEpisodes S t).map MediaItem.duration).sum)).min? with
  | none => rfl
  | some shortest =>
    dsimp only
    by_cases hz : shortest = 0
    · rw [if_pos hz, if_pos hz]
    · rw [if_neg hz, if_neg hz]
      have hfl := congrArg (fun L : List (Option String × List MediaItem) =>
        L.flatMap (fun pr => acceptEpisodes shortest (1 + margin) 0 pr.2))
        hmap
      dsimp only at hfl
      simp only [List.flatMap_map] at hfl
      rw [hfl]

/-- C4 witness: a concrete well-formed duplicate-free lineup (two shows in
non-alphabetical first-appearance order plus a movie) on which the
embedding and the specification walk agree. -/
theorem c4_balance_refinement_witness :
    (∀ it ∈ ([sampleEpB21, sampleEpA11, sampleMovie] : List MediaItem),
      wfItem it) ∧
    ((([sampleEpB21, sampleEpA11, sampleMovie] : List MediaItem).filter
        showEpPred).map key3).Nodup ∧
    balance_shows [sampleEpB21, sampleEpA11, sampleMovie] 1 =
      balanceSpec [sampleEpB21, sampleEpA11, sampleMovie] 1 :=
  ⟨by decide, by decide,
    c4_balance_refinement [sampleEpB21, sampleEpA11, sampleMovie] 1
      (by decide) (by decide)⟩

/-- C4 counterexample to the claimed show-alphabetical concatenation: with
show Beta appearing before show Alpha in the input, both shows' episodes
are accepted and Beta's episode is emitted first, although its title sorts
after Alpha's. -/
theorem c4_balance_refinement_counterexample :
    balance_shows [sampleEpB21, sampleEpA11] 1 =
      some [sampleEpB21, sampleEpA11] ∧
    leOptStr (alphaKey sampleEpB21) (alphaKey sampleEpA11) = false := by
  constructor
  · have ha1 : acceptEpisodes 2000 (1 + 1) 0 [sampleEpB21] =
        [sampleEpB21] := by
      unfold acceptEpisodes
      rw [if_pos ?_]
      · rfl
      · show ((0 : ℚ) + ((3000 : Nat) : ℚ)) / ((2000 : Nat) : ℚ) ≤ 1 + 1
        norm_num
    have ha2 : acceptEpisodes 2000 (1 + 1) 0 [sampleEpA11] =
        [sampleEpA11] := by
      unfold acceptEpisodes
      rw [if_pos ?_]
      · rfl
      · show ((0 : ℚ) + ((2000 : Nat) : ℚ)) / ((2000 : Nat) : ℚ) ≤ 1 + 1
        norm_num
    unfold balance_shows
    rw [show ((order_show_dict
        (make_show_dict [sampleEpB21, sampleEpA11])).map
          (fun p => showDictDuration p.2)).min? = some 2000 from by decide]
    dsimp only
    rw [if_neg (by decide)]
    rw [show order_show_dict (make_show_dict [sampleEpB21, sampleEpA11]) =
        [(some "Beta", [(some 2, [(some 1, sampleEpB21)])]),
          (some "Alpha", [(some 1, [(some 1, sampleEpA11)])])] from rfl]
    rw [show get_non_shows [sampleEpB21, sampleEpA11] = [] from by decide]
    simp only [List.flatMap_cons, List.flatMap_nil, List.append_nil]
    rw [show flattenSeasonDict [(some 2, [(some 1, sampleEpB21)])] =
      [sampleEpB21] from rfl]
    rw [show flattenSeasonDict [(some 1, [(some 1, sampleEpA11)])] =
      [sampleEpA11] from rfl]
    rw [ha1, ha2]
    rfl
  · have hBA : ¬ ("Beta" ≤ "Alpha") := by
      norm_num
      decide
    have h1 : alphaKey sampleEpB21 = some "Beta" := by decide
    have h2 : alphaKey sampleEpA11 = some "Alpha" := by decide
    rw [h1, h2]
    show decide ("Beta" ≤ "Alpha") = false
    exact decide_eq_false hBA

end DizqueTV
